import Mathlib

/-!
Verification of the Yaf compiler's code generator (backends `src/backend/c.rs`
and `src/backend/llvm.rs`, front-end `src/core/typechecker.rs`) against its
natural-language specification.

The development shallow-embeds:
* the typed AST (`src/core/ast.rs`, `src/runtime/values.rs`);
* the error enumeration (`src/error.rs`);
* the type checker's scope handling (`src/core/typechecker.rs`);
* the runtime primitives emitted by the C backend (`CodeGenerator::generate`,
  `c.rs` lines 91-191, the copies the claims cite) together with the list of
  top-level function definitions the emitted translation unit contains —
  `generate` emits a second definition of each primitive via
  `generate_helper_functions`, so the emitted file is ill-formed C and the
  C-backend build fails for every input;
* the runtime primitives generated by the LLVM backend
  (`generate_yaf_add/sub/mul/div/mod/eq/ne/lt/le/gt/ge/to_bool`,
  `generate_yaf_array_get/set`) together with an interpreter for the
  observable behavior of the generated module, and a model of the
  basic-block builder used by `generate_statement`.

Machine integers are modelled as `Int` with explicit two's-complement
wrapping (`wrap32` for the C backend's `int` payloads, `wrap64` for the LLVM
backend's `i64` payloads).  All definitions are executable.
-/

namespace Yaf

/-! ## AST (`src/core/ast.rs`, `src/runtime/values.rs`)

`Value` is the literal payload type (`runtime/values.rs`).  Rust's `f64`
float payload is represented by the integer it denotes: every lowering path
in both backends immediately narrows a float literal with `as i64`
(c.rs 763, llvm.rs 1249), and no claim concerns genuine float semantics. -/

inductive Value where
  | int (n : Int)
  | float (f : Int)
  | str (s : String)
  | bool (b : Bool)
deriving DecidableEq

/-- `Type` from `ast.rs` (named `Ty` because `Type` is a Lean keyword). -/
inductive Ty where
  | int
  | float
  | str
  | bool
  | void
  | array (elem : Ty)
deriving DecidableEq

/-- `Type::to_string` from `ast.rs`. -/
def Ty.toString : Ty → String
  | .int => "int"
  | .float => "float"
  | .str => "string"
  | .bool => "bool"
  | .void => "void"
  | .array e => "array[" ++ e.toString ++ "]"

/-- `BinaryOperator` from `ast.rs`. -/
inductive BinaryOperator where
  | add | subtract | multiply | divide | modulo
  | equal | notEqual | less | lessEqual | greater | greaterEqual
  | andO | orO
deriving DecidableEq

/-- `UnaryOperator` from `ast.rs`. -/
inductive UnaryOperator where
  | notO | minus
deriving DecidableEq

/- `Expression` from `ast.rs`.  The Rust `Vec<Expression>` argument lists are
represented by the mutually inductive `ExpList` so that all recursions over
expressions are structural (and hence compute by `rfl`/`decide`).
`Expression::Variable` is `varE` (`variable` is a Lean keyword). -/
mutual

inductive Expression where
  | literal (v : Value)
  | varE (name : String)
  | functionCall (name : String) (arguments : ExpList)
  | builtinCall (name : String) (arguments : ExpList)
  | binaryOp (left : Expression) (operator : BinaryOperator) (right : Expression)
  | unaryOp (operator : UnaryOperator) (operand : Expression)
  | arrayLit (elements : ExpList)
  | arrayAccess (array : Expression) (index : Expression)

inductive ExpList where
  | nil
  | cons (head : Expression) (tail : ExpList)

end

/- `Statement`, `Block` and `Option<Block>` from `ast.rs`, as a mutual
inductive family (`Blk` plays the role of `Block`, a list of statements;
`OBlk` plays the role of `Option<Block>`). -/
mutual

inductive Statement where
  | declaration (name : String) (varType : Ty) (value : Expression)
  | assignment (name : String) (value : Expression)
  | arrayAssignment (name : String) (index : Expression) (value : Expression)
  | ifS (condition : Expression) (thenBlock : Blk) (elseBlock : OBlk)
  | whileS (condition : Expression) (body : Blk)
  | forS (init : Statement) (condition : Expression) (increment : Statement) (body : Blk)
  | ret (value : Option Expression)
  | exprS (e : Expression)

inductive Blk where
  | nil
  | cons (head : Statement) (tail : Blk)

inductive OBlk where
  | none
  | some (b : Blk)

end

/-- `Parameter` from `ast.rs`. -/
structure Parameter where
  name : String
  paramType : Ty

/-- `Function` from `ast.rs`. -/
structure Function where
  name : String
  parameters : List Parameter
  returnType : Ty
  body : Blk

/-- `Program` from `ast.rs`. -/
structure Program where
  functions : List Function
  main : Blk

/-! ## Errors (`src/error.rs`)

The exact constructor list of `YafError`.  Note that there is no
`DuplicateDeclaration` variant anywhere in the enumeration. -/

inductive YafError where
  | lexError (msg : String)
  | lexErrorWithPosition (message : String) (line column : Nat)
  | parseError (msg : String)
  | parseErrorWithPosition (message : String) (tokenIndex totalTokens line column : Nat)
  | typeError (msg : String)
  | undefinedVariable (msg : String)
  | undefinedFunction (msg : String)
  | argumentMismatch (msg : String)
  | ioErr (msg : String)
  | runtimeError (msg : String)
  | valueError (msg : String)
  | indexError (msg : String)
deriving DecidableEq

/-! ## Association-list maps

`HashMap<String, _>` is modelled as an association list with
replace-on-insert semantics; only `insert`/`get`/`contains_key` are used by
the embedded code, for which this is an exact model. -/

def TMap (α : Type) : Type := List (String × α)

def TMap.lookup {α} : TMap α → String → Option α
  | [], _ => Option.none
  | (k, v) :: rest, key => if k = key then Option.some v else TMap.lookup rest key

def TMap.contains {α} (m : TMap α) (key : String) : Bool :=
  (TMap.lookup m key).isSome

def TMap.insert {α} : TMap α → String → α → TMap α
  | [], key, v => [(key, v)]
  | (k, w) :: rest, key, v =>
      if k = key then (k, v) :: rest else (k, w) :: TMap.insert rest key v

/-! ## Type checker (`src/core/typechecker.rs`)

The checker's state is `variables` (one flat map, cloned and restored around
nested blocks), `functions`, and `current_function_return_type`.  Here the
function map and return type are plain parameters (they are only mutated at
function boundaries) and the variable map is threaded explicitly. -/

abbrev FnSig := List Ty × Ty

def ExpList.length : ExpList → Nat
  | .nil => 0
  | .cons _ rest => 1 + rest.length

/-- Arithmetic operand rule for `Subtract`/`Multiply`/`Divide`. -/
def tcArith (lt rt : Ty) : Except YafError Ty :=
  match lt, rt with
  | .int, .int => .ok .int
  | .float, .float => .ok .float
  | .int, .float => .ok .float
  | .float, .int => .ok .float
  | _, _ => .error (.typeError ("Arithmetic operation requires numeric types, got " ++
      lt.toString ++ " and " ++ rt.toString))

/-- Comparison operand rule for `Less`/`LessEqual`/`Greater`/`GreaterEqual`. -/
def tcCompare (lt rt : Ty) : Except YafError Ty :=
  match lt, rt with
  | .int, .int => .ok .bool
  | .float, .float => .ok .bool
  | .int, .float => .ok .bool
  | .float, .int => .ok .bool
  | _, _ => .error (.typeError ("Comparison requires numeric types, got " ++
      lt.toString ++ " and " ++ rt.toString))

/-- Logical operand rule for `And`/`Or`. -/
def tcLogic (lt rt : Ty) : Except YafError Ty :=
  if (lt = .bool ∨ lt = .int) ∧ (rt = .bool ∨ rt = .int) then .ok .bool
  else .error (.typeError ("Logic operation requires bool or int types, got " ++
    lt.toString ++ " and " ++ rt.toString))

/-- Elementwise equality check for array literal element types. -/
def tcAllEq (t0 : Ty) : List Ty → Nat → Option YafError
  | [], _ => Option.none
  | t :: rest, i =>
      if t ≠ t0 then
        Option.some (.typeError ("Array element " ++ Nat.repr i ++ " has type " ++
          t.toString ++ ", expected " ++ t0.toString))
      else tcAllEq t0 rest (i + 1)

/-- Elementwise check of argument types against declared parameter types. -/
def tcMatchParams (name : String) (i : Nat) : List Ty → List Ty → Except YafError Unit
  | [], _ => .ok ()
  | _, [] => .ok ()
  | t :: ts, p :: ps =>
      if t ≠ p then
        .error (.typeError ("Function '" ++ name ++ "' argument " ++ Nat.repr i ++
          " expects " ++ p.toString ++ ", got " ++ t.toString))
      else tcMatchParams name (i + 1) ts ps

/-- The argument-type test for the library-function names special-cased in
the `FunctionCall` arm (typechecker.rs 291-390). -/
def tcStubCheck (name : String) (ts : List Ty) : Except YafError Ty :=
  let t := ts.headD .void
  if name = "int_to_string" then
    if t ≠ .int then
      .error (.typeError ("Function 'int_to_string' expects int argument, got " ++ t.toString))
    else .ok .str
  else if name = "string_to_int" then
    if t ≠ .str then
      .error (.typeError ("Function 'string_to_int' expects string argument, got " ++ t.toString))
    else .ok .int
  else if name = "string_length" then
    if t ≠ .str then
      .error (.typeError ("Function 'string_length' expects string argument, got " ++ t.toString))
    else .ok .int
  else
    if t ≠ .str then
      .error (.typeError ("Function '" ++ name ++ "' expects string argument, got " ++ t.toString))
    else .ok .str

/-- The arity gate of the `BuiltinCall` arm (typechecker.rs 568-837),
performed before any argument is checked; an unknown name fails here. -/
def tcBuiltinArity (name : String) (len : Nat) : Option YafError :=
  if name = "print" then Option.none
  else if name = "abs" then
    if len ≠ 1 then Option.some (.typeError ("abs() expects 1 argument, got " ++ Nat.repr len))
    else Option.none
  else if name = "max" ∨ name = "min" then
    if len ≠ 2 then
      Option.some (.typeError (name ++ "() expects 2 arguments, got " ++ Nat.repr len))
    else Option.none
  else if name = "pow" then
    if len ≠ 2 then
      Option.some (.typeError ("pow() expects 2 arguments, got " ++ Nat.repr len))
    else Option.none
  else if name = "input" then
    if len ≠ 0 then
      Option.some (.argumentMismatch ("Function 'input' expects no arguments, got " ++
        Nat.repr len))
    else Option.none
  else if name = "input_prompt" then
    if len ≠ 1 then
      Option.some (.argumentMismatch ("Function 'input_prompt' expects 1 argument, got " ++
        Nat.repr len))
    else Option.none
  else if name = "string_to_int" then
    if len ≠ 1 then
      Option.some (.argumentMismatch ("Function 'string_to_int' expects 1 argument, got " ++
        Nat.repr len))
    else Option.none
  else if name = "int_to_string" then
    if len ≠ 1 then
      Option.some (.argumentMismatch ("Function 'int_to_string' expects 1 argument, got " ++
        Nat.repr len))
    else Option.none
  else if name = "length" ∨ name = "string_length" ∨ name = "upper" ∨ name = "lower" ∨
          name = "string_upper" ∨ name = "string_lower" then
    if len ≠ 1 then
      Option.some (.typeError (name ++ "() expects 1 argument, got " ++ Nat.repr len))
    else Option.none
  else if name = "concat" then
    if len ≠ 2 then
      Option.some (.typeError ("concat() expects 2 arguments, got " ++ Nat.repr len))
    else Option.none
  else if name = "read_file" then
    if len ≠ 1 then
      Option.some (.typeError ("read_file() expects 1 argument, got " ++ Nat.repr len))
    else Option.none
  else if name = "write_file" then
    if len ≠ 2 then
      Option.some (.typeError ("write_file() expects 2 arguments, got " ++ Nat.repr len))
    else Option.none
  else if name = "file_exists" then
    if len ≠ 1 then
      Option.some (.typeError ("file_exists() expects 1 argument, got " ++ Nat.repr len))
    else Option.none
  else if name = "now" ∨ name = "now_millis" then
    if len ≠ 0 then
      Option.some (.typeError (name ++ "() expects no arguments, got " ++ Nat.repr len))
    else Option.none
  else if name = "sleep" then
    if len ≠ 1 then
      Option.some (.typeError ("sleep() expects 1 argument, got " ++ Nat.repr len))
    else Option.none
  else if name = "str" ∨ name = "int" ∨ name = "float" then
    if len ≠ 1 then
      Option.some (.typeError (name ++ "() expects 1 argument, got " ++ Nat.repr len))
    else Option.none
  else
    Option.some (.typeError ("Unknown builtin function: " ++ name))

/-- The argument-type test of the `BuiltinCall` arm, run after the
arguments have been checked. -/
def tcBuiltinCheck (name : String) (ts : List Ty) : Except YafError Ty :=
  let t1 := ts.headD .void
  let t2 := (ts.drop 1).headD .void
  if name = "print" then .ok .void
  else if name = "abs" then
    if t1 ≠ .int then
      .error (.typeError ("abs() expects int argument, got " ++ t1.toString))
    else .ok .int
  else if name = "max" ∨ name = "min" then
    if t1 ≠ .int ∨ t2 ≠ .int then
      .error (.typeError (name ++ "() expects int arguments, got " ++ t1.toString ++
        " and " ++ t2.toString))
    else .ok .int
  else if name = "pow" then
    if t1 ≠ .int ∨ t2 ≠ .int then
      .error (.typeError ("pow() expects int arguments, got " ++ t1.toString ++
        " and " ++ t2.toString))
    else .ok .int
  else if name = "input" then .ok .str
  else if name = "input_prompt" then
    if t1 ≠ .str then
      .error (.typeError ("Function 'input_prompt' expects string argument, got " ++
        t1.toString))
    else .ok .str
  else if name = "string_to_int" then
    if t1 ≠ .str then
      .error (.typeError ("Function 'string_to_int' expects string argument, got " ++
        t1.toString))
    else .ok .int
  else if name = "int_to_string" then
    if t1 ≠ .int then
      .error (.typeError ("Function 'int_to_string' expects int argument, got " ++
        t1.toString))
    else .ok .str
  else if name = "length" ∨ name = "string_length" then
    if t1 ≠ .str then
      .error (.typeError (name ++ "() expects string argument, got " ++ t1.toString))
    else .ok .int
  else if name = "upper" ∨ name = "lower" ∨ name = "string_upper" ∨ name = "string_lower" then
    if t1 ≠ .str then
      .error (.typeError (name ++ "() expects string argument, got " ++ t1.toString))
    else .ok .str
  else if name = "concat" then
    if t1 ≠ .str ∨ t2 ≠ .str then
      .error (.typeError ("concat() expects string arguments, got " ++ t1.toString ++
        " and " ++ t2.toString))
    else .ok .str
  else if name = "read_file" then
    if t1 ≠ .str then
      .error (.typeError ("read_file() expects string argument, got " ++ t1.toString))
    else .ok .str
  else if name = "write_file" then
    if t1 ≠ .str ∨ t2 ≠ .str then
      .error (.typeError ("write_file() expects string arguments, got " ++ t1.toString ++
        " and " ++ t2.toString))
    else .ok .bool
  else if name = "file_exists" then
    if t1 ≠ .str then
      .error (.typeError ("file_exists() expects string argument, got " ++ t1.toString))
    else .ok .bool
  else if name = "now" ∨ name = "now_millis" then .ok .int
  else if name = "sleep" then
    if t1 ≠ .int then
      .error (.typeError ("sleep() expects int argument, got " ++ t1.toString))
    else .ok .bool
  else if name = "str" then .ok .str
  else if name = "int" then .ok .int
  else if name = "float" then .ok .float
  else .error (.typeError ("Unknown builtin function: " ++ name))


mutual

/-- `TypeChecker::check_expression`.  Reads the variable map, never writes
it.  The arity tests (which the source performs before checking any
argument) are the pure `tcStubArity`/`tcBuiltinArity`, and the
argument-type tests that the source performs after checking the arguments
are the pure `tcStubCheck`/`tcBuiltinCheck`, keeping the recursion
structural. -/
def tcExpr (fns : TMap FnSig) (vars : TMap Ty) : Expression → Except YafError Ty
  | .literal v =>
      match v with
      | .int _ => .ok .int
      | .float _ => .ok .float
      | .str _ => .ok .str
      | .bool _ => .ok .bool
  | .varE name =>
      match vars.lookup name with
      | Option.some t => .ok t
      | Option.none => .error (.undefinedVariable name)
  | .functionCall name arguments =>
      if name = "print" then do
        let _ ← tcArgs fns vars arguments
        .ok .void
      else if name = "input" then
        if arguments.length ≠ 0 then
          .error (.argumentMismatch ("Function 'input' expects no arguments, got " ++
            Nat.repr arguments.length))
        else .ok .str
      else if name = "input_prompt" ∨ name = "string_to_int" ∨ name = "int_to_string" ∨
              name = "string_length" ∨ name = "string_upper" ∨ name = "string_lower" then
        if arguments.length ≠ 1 then
          .error (.argumentMismatch ("Function '" ++ name ++ "' expects 1 argument, got " ++
            Nat.repr arguments.length))
        else do
          let ts ← tcArgs fns vars arguments
          tcStubCheck name ts
      else
        match fns.lookup name with
        | Option.some (paramTypes, returnType) =>
            if arguments.length ≠ paramTypes.length then
              .error (.argumentMismatch ("Function '" ++ name ++ "' expects " ++
                Nat.repr paramTypes.length ++ " arguments, got " ++
                Nat.repr arguments.length))
            else do
              tcArgsAgainst fns vars name 1 paramTypes arguments
              .ok returnType
        | Option.none => .error (.undefinedFunction name)
  | .binaryOp left operator right => do
      let lt ← tcExpr fns vars left
      let rt ← tcExpr fns vars right
      match operator with
      | .add =>
          match lt, rt with
          | .int, .int => .ok .int
          | .float, .float => .ok .float
          | .int, .float => .ok .float
          | .float, .int => .ok .float
          | .str, .str => .ok .str
          | _, _ => .error (.typeError ("Cannot add " ++ lt.toString ++ " and " ++ rt.toString))
      | .subtract => tcArith lt rt
      | .multiply => tcArith lt rt
      | .divide => tcArith lt rt
      | .modulo =>
          if lt = .int ∧ rt = .int then .ok .int
          else .error (.typeError ("Modulo operation requires int types, got " ++
            lt.toString ++ " and " ++ rt.toString))
      | .equal =>
          if lt = rt then .ok .bool
          else .error (.typeError ("Cannot compare " ++ lt.toString ++ " and " ++ rt.toString))
      | .notEqual =>
          if lt = rt then .ok .bool
          else .error (.typeError ("Cannot compare " ++ lt.toString ++ " and " ++ rt.toString))
      | .less => tcCompare lt rt
      | .lessEqual => tcCompare lt rt
      | .greater => tcCompare lt rt
      | .greaterEqual => tcCompare lt rt
      | .andO => tcLogic lt rt
      | .orO => tcLogic lt rt
  | .unaryOp operator operand => do
      let t ← tcExpr fns vars operand
      match operator with
      | .notO =>
          if t = .bool ∨ t = .int then .ok .bool
          else .error (.typeError ("Not operation requires bool or int, got " ++ t.toString))
      | .minus =>
          if t = .int then .ok .int
          else .error (.typeError ("Unary minus requires int, got " ++ t.toString))
  | .arrayLit elements => do
      let ts ← tcArgs fns vars elements
      match ts with
      | [] => .ok (.array .int)
      | t0 :: rest =>
          match tcAllEq t0 rest 1 with
          | Option.none => .ok (.array t0)
          | Option.some e => .error e
  | .arrayAccess array index => do
      let at' ← tcExpr fns vars array
      let it ← tcExpr fns vars index
      if it ≠ .int then
        .error (.typeError ("Array index must be int, got " ++ it.toString))
      else
        match at' with
        | .array elem => .ok elem
        | _ => .error (.typeError ("Cannot index non-array type " ++ at'.toString))
  | .builtinCall name arguments =>
      match tcBuiltinArity name arguments.length with
      | Option.some e => .error e
      | Option.none => do
          let ts ← tcArgs fns vars arguments
          tcBuiltinCheck name ts

/-- Checks every argument expression in order, collecting their types. -/
def tcArgs (fns : TMap FnSig) (vars : TMap Ty) : ExpList → Except YafError (List Ty)
  | .nil => .ok []
  | .cons a rest => do
      let t ← tcExpr fns vars a
      let ts ← tcArgs fns vars rest
      .ok (t :: ts)

/-- The user-function argument loop (typechecker.rs 404-412): each argument
is checked and immediately compared against the declared parameter type
before the next argument is checked. -/
def tcArgsAgainst (fns : TMap FnSig) (vars : TMap Ty) (name : String) (i : Nat) :
    List Ty → ExpList → Except YafError Unit
  | _, .nil => .ok ()
  | [], .cons a rest => do
      let _ ← tcExpr fns vars a
      tcArgsAgainst fns vars name (i + 1) [] rest
  | p :: ps, .cons a rest => do
      let t ← tcExpr fns vars a
      if t ≠ p then
        .error (.typeError ("Function '" ++ name ++ "' argument " ++ Nat.repr i ++
          " expects " ++ p.toString ++ ", got " ++ t.toString))
      else
        tcArgsAgainst fns vars name (i + 1) ps rest

end

mutual

/-- `TypeChecker::check_statement`.  Returns the updated variable map (the
source mutates `self.variables`; the clone/restore around nested blocks is
made explicit here by returning the pre-statement map). -/
def tcStmt (fns : TMap FnSig) (retTy : Option Ty) (vars : TMap Ty) :
    Statement → Except YafError (TMap Ty)
  | .declaration name varType value => do
      let vt ← tcExpr fns vars value
      if vt ≠ varType then
        .error (.typeError ("Cannot assign " ++ vt.toString ++ " to variable '" ++ name ++
          "' of declared type " ++ varType.toString))
      else if vars.contains name then
        .error (.typeError ("Variable '" ++ name ++ "' is already declared"))
      else
        .ok (vars.insert name varType)
  | .assignment name value => do
      let vt ← tcExpr fns vars value
      match vars.lookup name with
      | Option.some existing =>
          if existing ≠ vt then
            .error (.typeError ("Cannot assign " ++ vt.toString ++ " to variable '" ++ name ++
              "' of type " ++ existing.toString))
          else .ok vars
      | Option.none => .ok (vars.insert name vt)
  | .arrayAssignment name index value => do
      let it ← tcExpr fns vars index
      let vt ← tcExpr fns vars value
      if it ≠ .int then
        .error (.typeError ("Array index must be integer, got " ++ it.toString))
      else
        match vars.lookup name with
        | Option.some (.array elem) =>
            if elem ≠ vt then
              .error (.typeError ("Cannot assign " ++ vt.toString ++ " to array '" ++ name ++
                "' of type " ++ elem.toString))
            else .ok vars
        | Option.some _ =>
            .error (.typeError ("Variable '" ++ name ++ "' is not an array"))
        | Option.none =>
            .error (.typeError ("Variable '" ++ name ++ "' not found"))
  | .ifS condition thenBlock elseBlock => do
      let ct ← tcExpr fns vars condition
      if ct ≠ .bool ∧ ct ≠ .int then
        .error (.typeError ("If condition must be bool or int, found " ++ ct.toString))
      else do
        let _ ← tcBlk fns retTy vars thenBlock
        match elseBlock with
        | .none => .ok vars
        | .some eb => do
            let _ ← tcBlk fns retTy vars eb
            .ok vars
  | .whileS condition body => do
      let ct ← tcExpr fns vars condition
      if ct ≠ .bool ∧ ct ≠ .int then
        .error (.typeError ("While condition must be bool or int, found " ++ ct.toString))
      else do
        let _ ← tcBlk fns retTy vars body
        .ok vars
  | .forS init condition increment body => do
      let v1 ← tcStmt fns retTy vars init
      let ct ← tcExpr fns v1 condition
      if ct ≠ .bool ∧ ct ≠ .int then
        .error (.typeError ("For condition must be bool or int, found " ++ ct.toString))
      else do
        let v2 ← tcStmt fns retTy v1 increment
        let _ ← tcBlk fns retTy v2 body
        .ok vars
  | .ret value => do
      let rt ← match value with
        | Option.some e => tcExpr fns vars e
        | Option.none => pure Ty.void
      match retTy with
      | Option.some expected =>
          if rt ≠ expected then
            .error (.typeError ("Return type " ++ rt.toString ++
              " doesn't match function return type " ++ expected.toString))
          else .ok vars
      | Option.none => .ok vars
  | .exprS e => do
      let _ ← tcExpr fns vars e
      .ok vars

/-- `TypeChecker::check_block`. -/
def tcBlk (fns : TMap FnSig) (retTy : Option Ty) (vars : TMap Ty) :
    Blk → Except YafError (TMap Ty)
  | .nil => .ok vars
  | .cons s rest => do
      let vars' ← tcStmt fns retTy vars s
      tcBlk fns retTy vars' rest

end

/-- `TypeChecker::collect_global_variables`: only top-level `Assignment`
statements introduce globals; their value expressions are checked with the
globals accumulated so far. -/
def tcCollectGlobals (fns : TMap FnSig) (vars : TMap Ty) : Blk → Except YafError (TMap Ty)
  | .nil => .ok vars
  | .cons s rest =>
      match s with
      | .assignment name value => do
          let vt ← tcExpr fns vars value
          tcCollectGlobals fns (vars.insert name vt) rest
      | _ => tcCollectGlobals fns vars rest

/-- `TypeChecker::check_function`: globals plus parameters in scope, return
type set, variable map restored afterwards (modelled by discarding it). -/
def tcFunction (fns : TMap FnSig) (globals : TMap Ty) (f : Function) : Except YafError Unit := do
  let scope := f.parameters.foldl (fun m p => m.insert p.name p.paramType) globals
  let _ ← tcBlk fns (Option.some f.returnType) scope f.body
  .ok ()

def tcFunctions (fns : TMap FnSig) (globals : TMap Ty) : List Function → Except YafError Unit
  | [] => .ok ()
  | f :: rest => do
      tcFunction fns globals f
      tcFunctions fns globals rest

/-- `TypeChecker::check`: collect signatures, collect globals, check each
function body, then check the main block with return type `Void`. -/
def typecheckProgram (p : Program) : Except YafError Unit := do
  let fns : TMap FnSig := p.functions.foldl
    (fun m f => m.insert f.name (f.parameters.map (·.paramType), f.returnType)) []
  let globals ← tcCollectGlobals fns [] p.main
  tcFunctions fns globals p.functions
  let _ ← tcBlk fns (Option.some .void) globals p.main
  .ok ()

/-! ## Machine integers

Two's-complement wrapping for the C backend's 32-bit `int` payloads and the
LLVM backend's `i64` payloads. -/

def wrap32 (n : Int) : Int := (n + 2 ^ 31) % 2 ^ 32 - 2 ^ 31

def wrap64 (n : Int) : Int := (n + 2 ^ 63) % 2 ^ 64 - 2 ^ 63

def inRange32 (n : Int) : Prop := -(2 ^ 31) ≤ n ∧ n < 2 ^ 31

theorem wrap32_eq_self {n : Int} (h : inRange32 n) : wrap32 n = n := by
  rcases h with ⟨h1, h2⟩
  unfold wrap32
  omega

theorem wrap64_eq_self {n : Int} (h : inRange32 n) : wrap64 n = n := by
  rcases h with ⟨h1, h2⟩
  unfold wrap64
  omega

/-! ## C backend runtime values and primitives

`yaf_value_t` as laid out by the C backend's emitted runtime
(`CodeGenerator::generate`, c.rs 41-61): tags Int/Bool/String/Void, with a
32-bit `int` payload for Int.  The primitive bodies below are the first set
of definitions the generator emits into every output file (c.rs 91-191) —
the set the claims cite.  (The same `generate` call later emits a second,
conflicting set of definitions for several of these names via
`generate_helper_functions`, c.rs 295-452; the two `yaf_div`/`yaf_mod`
copies are both modelled because claim C2 turns on their disagreement.) -/

inductive CVal where
  | int (n : Int)
  | bool (b : Bool)
  | str (s : String)
  | void
deriving DecidableEq

def CVal.isStr : CVal → Bool
  | .str _ => true
  | _ => false

/-- `yaf_to_bool` (c.rs 91-97): Bool payload; Int nonzero; default false. -/
def cYafToBool : CVal → Bool
  | .bool b => b
  | .int n => n ≠ 0
  | _ => false

/-- `yaf_eq` (c.rs 100-107): different tags compare false; Int and Bool
compare payloads; all other same-tag cases fall to the default false. -/
def cYafEq : CVal → CVal → CVal
  | .int a, .int b => .bool (a = b)
  | .bool a, .bool b => .bool (a = b)
  | _, _ => .bool false

/-- `yaf_lt` (c.rs 110-115): Int/Int compares, everything else false. -/
def cYafLt : CVal → CVal → CVal
  | .int a, .int b => .bool (a < b)
  | _, _ => .bool false

/-- `yaf_gt` (c.rs 118-123). -/
def cYafGt : CVal → CVal → CVal
  | .int a, .int b => .bool (a > b)
  | _, _ => .bool false

/-- `yaf_le` (c.rs 126-131). -/
def cYafLe : CVal → CVal → CVal
  | .int a, .int b => .bool (a ≤ b)
  | _, _ => .bool false

/-- `yaf_ge` (c.rs 134-139). -/
def cYafGe : CVal → CVal → CVal
  | .int a, .int b => .bool (a ≥ b)
  | _, _ => .bool false

/-- `yaf_add` (c.rs 142-151): Int/Int adds (32-bit); otherwise, if either
operand's tag is String, the FIRST operand is returned unchanged
("Return first for now"); otherwise Int 0. -/
def cYafAdd (a b : CVal) : CVal :=
  match a, b with
  | .int x, .int y => .int (wrap32 (x + y))
  | _, _ => if a.isStr || b.isStr then a else .int 0

/-- `yaf_sub` (c.rs 154-159). -/
def cYafSub : CVal → CVal → CVal
  | .int a, .int b => .int (wrap32 (a - b))
  | _, _ => .int 0

/-- `yaf_mul` (c.rs 162-167). -/
def cYafMul : CVal → CVal → CVal
  | .int a, .int b => .int (wrap32 (a * b))
  | _, _ => .int 0

/-- `yaf_div` (c.rs 170-175): divides only when both operands are Int and
the divisor is nonzero; in every other case — including division by zero —
it silently returns `yaf_make_int(0)`.  C `/` truncates toward zero
(`Int.tdiv`). -/
def cYafDiv : CVal → CVal → CVal
  | .int a, .int b => if b ≠ 0 then .int (wrap32 (Int.tdiv a b)) else .int 0
  | _, _ => .int 0

/-- `yaf_mod` (c.rs 178-183): same shape as `yaf_div`; C `%` is `Int.tmod`. -/
def cYafMod : CVal → CVal → CVal
  | .int a, .int b => if b ≠ 0 then .int (wrap32 (Int.tmod a b)) else .int 0
  | _, _ => .int 0

/-- `yaf_make_array` (c.rs 186-191): "arrays return int 0". -/
def cYafMakeArray : CVal := .int 0

/-- The second emitted copy of `yaf_div` (`generate_helper_functions`,
c.rs 334-350): prints "División por cero" to stderr and exits(1) on a zero
divisor, exits(1) with "Operación de división inválida" on non-Int operands.
The abnormal exit is modelled as `Except.error` carrying the message. -/
def cYafDivHelper : CVal → CVal → Except String CVal
  | .int a, .int b =>
      if b = 0 then .error "División por cero"
      else .ok (.int (wrap32 (Int.tdiv a b)))
  | _, _ => .error "Operación de división inválida"

/-- The second emitted copy of `yaf_mod` (c.rs 353-369). -/
def cYafModHelper : CVal → CVal → Except String CVal
  | .int a, .int b =>
      if b = 0 then .error "Módulo por cero"
      else .ok (.int (wrap32 (Int.tmod a b)))
  | _, _ => .error "Operación de módulo inválida"

/-- `yaf_print_value` (`generate_helper_functions`, c.rs 224-251):
`%d` for Int, `%s` for String, true/false for Bool, "void" for Void. -/
def cPrintValue : CVal → String
  | .int n => ToString.toString n
  | .str s => s
  | .bool b => if b then "true" else "false"
  | .void => "void"

/-- `yaf_math_abs` (c.rs 456-466). -/
def cMathAbs : CVal → CVal
  | .int v => .int (wrap32 (if v < 0 then -v else v))
  | _ => .int 0

/-- `yaf_math_max` (c.rs 469-478): returns one of the operand values. -/
def cMathMax (a b : CVal) : CVal :=
  match a, b with
  | .int x, .int y => if x > y then a else b
  | _, _ => .int 0

/-- `yaf_math_min` (c.rs 481-490). -/
def cMathMin (a b : CVal) : CVal :=
  match a, b with
  | .int x, .int y => if x < y then a else b
  | _, _ => .int 0

/-- The multiply loop of `yaf_math_pow` (c.rs 497-505). -/
def cPowLoop (b : Int) : Nat → Int
  | 0 => 1
  | n + 1 => wrap32 (cPowLoop b n * b)

/-- `yaf_math_pow` (c.rs 493-510): repeated 32-bit multiplication; a
non-positive exponent leaves the accumulator at 1. -/
def cMathPow : CVal → CVal → CVal
  | .int b, .int e => .int (cPowLoop b (if e ≤ 0 then 0 else e.toNat))
  | _, _ => .int 1

/-- `yaf_string_length` (c.rs 514-523). -/
def cStringLength : CVal → CVal
  | .str s => .int s.length
  | _ => .int 0

/-- `yaf_string_upper` (c.rs 526-543); C `toupper` on ASCII. -/
def cStringUpper : CVal → CVal
  | .str s => .str (s.map Char.toUpper)
  | _ => .str ""

/-- `yaf_string_lower` (c.rs 546-563). -/
def cStringLower : CVal → CVal
  | .str s => .str (s.map Char.toLower)
  | _ => .str ""

/-- `yaf_string_concat` (c.rs 566-580): concatenates only when both operands
are String, otherwise returns the empty string. -/
def cStringConcat : CVal → CVal → CVal
  | .str a, .str b => .str (a ++ b)
  | _, _ => .str ""

/-! ## LLVM backend runtime values and primitives

`yaf_value_type` is the LLVM struct `{ i32 tag, i64 payload }`
(llvm.rs 44-50).  `LV.undef` is the `get_undef()` struct value the generator
uses for implicit and empty returns and for `print`'s result.  Applying a
generated primitive to `undef` is unspecified behavior; the model refuses to
evaluate it (`RunErr.undefUse`) — no theorem below depends on that path.

String payloads are pointers into runtime-allocated memory; the model
carries a string heap (`StrHeap`) in which a payload `i + 1` denotes the
`i`-th allocated string (allocated addresses are nonzero, so String values
coerce to true under the payload-only `yaf_to_bool`). -/

inductive RunErr where
  | fuel
  | divByZero
  | modByZero
  | undefUse
  | undefVar (name : String)
  | undefFn (name : String)
  | extcall (name : String)
  | arrays
  | unknownBuiltin (name : String)
deriving DecidableEq

inductive LV where
  | mk (tag : Int) (payload : Int)
  | undef
deriving DecidableEq

abbrev StrHeap := List String

/-- The LLVM backend's String tag, from its own tag tests (llvm.rs 505,
1666, 1710: `YAF_STRING = 2`). -/
def llvmStringTag : Int := 2

/-- Modelled from the spec: the Bool tag used by the external runtime's
`yaf_make_bool` (`runtime/yaf_runtime.c` is not under `src/`).  The exact
numeral does not matter to any theorem below; the emitted C runtime's enum
(c.rs 43-46) uses 1 for Bool. -/
def llvmBoolTag : Int := 1

/-- Modelled from the spec: the external value constructor `yaf_make_int`
(declared llvm.rs 183-184), producing an Int-tagged Value; the `i64`
argument wraps. -/
def llvmMakeInt (n : Int) : LV := .mk 0 (wrap64 n)

/-- Modelled from the spec: the external value constructor `yaf_make_bool`
(declared llvm.rs 187-188). -/
def llvmMakeBool (b : Bool) : LV := .mk llvmBoolTag (if b then 1 else 0)

/-- Modelled from the spec: the external `yaf_make_string` (declared
llvm.rs 191-192) copies the string into fresh memory and stores the pointer
in the payload. -/
def llvmAllocString (h : StrHeap) (s : String) : LV × StrHeap :=
  (.mk llvmStringTag ((h.length : Int) + 1), h ++ [s])

/-- The string a String-tagged value points at (empty for anything else). -/
def llvmStrContent (h : StrHeap) : LV → String
  | .mk t p => if t = llvmStringTag then h.getD (p - 1).toNat "" else ""
  | .undef => ""

/-- Modelled from the spec: the external string-concatenation primitive
`yaf_string_concat` (declared llvm.rs 218-219), producing a fresh string
whose content is the first operand's content followed by the second's. -/
def llvmStringConcat (h : StrHeap) (a b : LV) : LV × StrHeap :=
  llvmAllocString h (llvmStrContent h a ++ llvmStrContent h b)

/-- `generate_yaf_to_bool` (llvm.rs 882-902): compares the payload against
zero and ignores the tag entirely. -/
def llvmYafToBool : LV → Except RunErr Bool
  | .mk _ p => .ok (p ≠ 0)
  | .undef => .error .undefUse

/-- `generate_yaf_add` (llvm.rs 483-573): if either operand's tag is String
(= 2), branch to `yaf_string_concat`; otherwise add the two `i64` payloads
and rebuild an Int value with `yaf_make_int`. -/
def llvmYafAdd (h : StrHeap) : LV → LV → Except RunErr (LV × StrHeap)
  | .mk t1 p1, .mk t2 p2 =>
      if t1 = llvmStringTag ∨ t2 = llvmStringTag then
        .ok (llvmStringConcat h (.mk t1 p1) (.mk t2 p2))
      else
        .ok (llvmMakeInt (p1 + p2), h)
  | _, _ => .error .undefUse

/-- `generate_yaf_sub` (llvm.rs 576-603): payload subtraction, no tag test. -/
def llvmYafSub : LV → LV → Except RunErr LV
  | .mk _ p1, .mk _ p2 => .ok (llvmMakeInt (p1 - p2))
  | _, _ => .error .undefUse

/-- `generate_yaf_mul` (llvm.rs 605-632). -/
def llvmYafMul : LV → LV → Except RunErr LV
  | .mk _ p1, .mk _ p2 => .ok (llvmMakeInt (p1 * p2))
  | _, _ => .error .undefUse

/-- `generate_yaf_div` (llvm.rs 634-661): a bare `sdiv` of the payloads with
no zero test; executing `sdiv` with a zero divisor is an immediate hardware
trap (undefined behavior), modelled as the runtime failure `divByZero`. -/
def llvmYafDiv : LV → LV → Except RunErr LV
  | .mk _ p1, .mk _ p2 =>
      if p2 = 0 then .error .divByZero else .ok (llvmMakeInt (Int.tdiv p1 p2))
  | _, _ => .error .undefUse

/-- `generate_yaf_mod` (llvm.rs 663-690): a bare `srem`, trapping on zero. -/
def llvmYafMod : LV → LV → Except RunErr LV
  | .mk _ p1, .mk _ p2 =>
      if p2 = 0 then .error .modByZero else .ok (llvmMakeInt (Int.tmod p1 p2))
  | _, _ => .error .undefUse

/-- `generate_yaf_eq` (llvm.rs 708-735): extracts the two `i64` payloads,
compares them with `icmp eq`, and builds a Bool — the type tags are never
consulted. -/
def llvmYafEq : LV → LV → Except RunErr LV
  | .mk _ p1, .mk _ p2 => .ok (llvmMakeBool (decide (p1 = p2)))
  | _, _ => .error .undefUse

/-- `generate_yaf_ne` (llvm.rs 766-793). -/
def llvmYafNe : LV → LV → Except RunErr LV
  | .mk _ p1, .mk _ p2 => .ok (llvmMakeBool (decide (p1 ≠ p2)))
  | _, _ => .error .undefUse

/-- `generate_yaf_lt` (llvm.rs 737-764): signed payload comparison. -/
def llvmYafLt : LV → LV → Except RunErr LV
  | .mk _ p1, .mk _ p2 => .ok (llvmMakeBool (decide (p1 < p2)))
  | _, _ => .error .undefUse

/-- `generate_yaf_le` (llvm.rs 795-822). -/
def llvmYafLe : LV → LV → Except RunErr LV
  | .mk _ p1, .mk _ p2 => .ok (llvmMakeBool (decide (p1 ≤ p2)))
  | _, _ => .error .undefUse

/-- `generate_yaf_gt` (llvm.rs 824-851). -/
def llvmYafGt : LV → LV → Except RunErr LV
  | .mk _ p1, .mk _ p2 => .ok (llvmMakeBool (decide (p1 > p2)))
  | _, _ => .error .undefUse

/-- `generate_yaf_ge` (llvm.rs 853-880). -/
def llvmYafGe : LV → LV → Except RunErr LV
  | .mk _ p1, .mk _ p2 => .ok (llvmMakeBool (decide (p1 ≥ p2)))
  | _, _ => .error .undefUse

/-! ## LLVM array primitives (llvm.rs 1761-1971)

A byte-addressed memory in which each address can hold a raw `i64` (the
array length written by `yaf_make_array`) or a 16-byte Value struct (written
by `yaf_array_set`).  `size_of(yaf_value_type)` is 16 (`{i32, i64}` with
alignment padding).  Loading from an address that does not hold a Value
yields an unspecified result, modelled as `undef`. -/

inductive MemCell where
  | uninit
  | raw (n : Int)
  | val (v : LV)

def AMem : Type := Int → MemCell

def AMem.store (m : AMem) (a : Int) (c : MemCell) : AMem :=
  fun x => if x = a then c else m x

def llvmValueSize : Int := 16

/-- The element address computed by both `generate_yaf_array_get`
(llvm.rs 1865-1894) and `generate_yaf_array_set` (llvm.rs 1935-1964):
`base + 8 + index * size_of(yaf_value_type)`. -/
def elemAddr (base idx : Int) : Int := base + 8 + idx * llvmValueSize

/-- `generate_yaf_make_array` (llvm.rs 1761-1834): malloc a region (the
fresh base address is a parameter, since `malloc` is external), store the
length as an `i64` at the base, and return an Array-tagged value
(`YAF_ARRAY = 3`, llvm.rs 1821) whose payload is the base pointer. -/
def yafMakeArray (m : AMem) (base n : Int) : LV × AMem :=
  (.mk 3 base, m.store base (.raw n))

/-- `generate_yaf_array_set` (llvm.rs 1907-1971): extracts the array payload
(base pointer) and index payload, computes the element address, and stores
the 16-byte value there.  No bounds check is performed. -/
def yafArraySet (m : AMem) (arr idx v : LV) : AMem :=
  match arr, idx with
  | .mk _ base, .mk _ i => m.store (elemAddr base i) (.val v)
  | _, _ => m

/-- `generate_yaf_array_get` (llvm.rs 1836-1905): same address computation,
followed by a 16-byte load.  No bounds check is performed. -/
def yafArrayGet (m : AMem) (arr idx : LV) : LV :=
  match arr, idx with
  | .mk _ base, .mk _ i =>
      match m (elemAddr base i) with
      | .val v => v
      | _ => .undef
  | _, _ => (.undef)

/-! ## Claim C9: array write-then-read round trip -/

/-- C9: for an array allocated with length `n` at base address `base`, any
index `0 ≤ k < n`, and any value `v`, writing `v` at index `k` with
`yaf_array_set` and reading index `k` back with `yaf_array_get` returns `v`
unchanged.  (The two primitives compute the same element address
`base + 8 + 16·k` and the store/load round-trips.) -/
theorem array_set_get_roundtrip (m : AMem) (base n k : Int) (v : LV)
    (hk0 : 0 ≤ k) (hkn : k < n) :
    yafArrayGet
      (yafArraySet (yafMakeArray m base n).2 (yafMakeArray m base n).1 (llvmMakeInt k) v)
      (yafMakeArray m base n).1 (llvmMakeInt k) = v := by
  simp [yafMakeArray, yafArraySet, yafArrayGet, llvmMakeInt, AMem.store]

/-- Witness for C9 at `base = 100`, `n = 3`, `k = 1`, `v = Int 42`. -/
theorem array_set_get_roundtrip_witness :
    (0 : Int) ≤ 1 ∧ (1 : Int) < 3 ∧
    yafArrayGet
      (yafArraySet (yafMakeArray (fun _ => .uninit) 100 3).2
        (yafMakeArray (fun _ => .uninit) 100 3).1 (llvmMakeInt 1) (.mk 0 42))
      (yafMakeArray (fun _ => .uninit) 100 3).1 (llvmMakeInt 1) = .mk 0 42 :=
  ⟨by decide, by decide,
    array_set_get_roundtrip (fun _ => .uninit) 100 3 1 (.mk 0 42) (by decide) (by decide)⟩

/-! ## Claim C2: division and modulo by zero -/

/-- C2 evaluated at the failing input (a = Int 1, b = 0): the C backend's
emitted `yaf_div`/`yaf_mod` (c.rs 170-183, the copies the claim cites)
silently return Int 0 for a zero divisor — no runtime failure — while the
second emitted copies of the very same functions (c.rs 334-369) and the
native backend's bare `sdiv`/`srem` (llvm.rs 634-690) fail at runtime, as
the claim demands. -/
theorem div_mod_by_zero_behavior :
    cYafDiv (.int 1) (.int 0) = .int 0 ∧
    cYafMod (.int 1) (.int 0) = .int 0 ∧
    cYafDivHelper (.int 1) (.int 0) = .error "División por cero" ∧
    cYafModHelper (.int 1) (.int 0) = .error "Módulo por cero" ∧
    llvmYafDiv (.mk 0 1) (.mk 0 0) = .error .divByZero ∧
    llvmYafMod (.mk 0 1) (.mk 0 0) = .error .modByZero := by
  refine ⟨rfl, rfl, rfl, rfl, rfl, rfl⟩

/-! ## Claim C3: string `+` -/

/-- C3 counterexample: in the C backend, `s1 + s2` on strings does NOT
produce the concatenation — the emitted `yaf_add` (c.rs 146-149) returns the
first operand unchanged ("Return first for now"). -/
theorem c_string_add_not_concat :
    cYafAdd (.str "a") (.str "b") = .str "a" ∧
    cYafAdd (.str "a") (.str "b") ≠ .str ("a" ++ "b") := by
  refine ⟨rfl, by decide⟩

/-- C3 amended: in the native (LLVM) backend, `yaf_add` on two String-tagged
values dispatches (by the tag test) to the string-concatenation primitive
and yields a String-tagged value whose content is exactly `s1 ++ s2`; in the
C backend, `yaf_add` detects the String tag but returns the first operand
unchanged.  In neither backend is a String operand treated as integer
addition. -/
theorem string_add_dispatch (s1 s2 : String) :
    llvmAllocString [] s1 = (.mk 2 1, [s1]) ∧
    llvmAllocString [s1] s2 = (.mk 2 2, [s1, s2]) ∧
    llvmYafAdd [s1, s2] (.mk 2 1) (.mk 2 2) = .ok (.mk 2 3, [s1, s2, s1 ++ s2]) ∧
    llvmStrContent [s1, s2, s1 ++ s2] (.mk 2 3) = s1 ++ s2 ∧
    cYafAdd (.str s1) (.str s2) = .str s1 := by
  refine ⟨rfl, rfl, ?_, rfl, rfl⟩
  simp [llvmYafAdd, llvmStringTag, llvmStringConcat, llvmAllocString, llvmStrContent]

/-! ## Claim C10: payload-only equality in the native backend -/

/-- C10: the native backend's `yaf_eq` compares only the 64-bit payloads and
ignores the type tags: the result is `Bool(p1 = p2)` for any tags, it is
invariant under changing the tags, it returns Bool(true) exactly when the
payloads coincide, and in particular Int 0 and Bool false compare equal. -/
theorem llvm_eq_ignores_tags :
    (∀ t1 p1 t2 p2 : Int,
        llvmYafEq (.mk t1 p1) (.mk t2 p2) = .ok (llvmMakeBool (decide (p1 = p2)))) ∧
    (∀ t1 p1 t2 p2 : Int,
        llvmYafEq (.mk t1 p1) (.mk t2 p2) = llvmYafEq (.mk 0 p1) (.mk 0 p2)) ∧
    (∀ t1 p1 t2 p2 : Int,
        llvmYafEq (.mk t1 p1) (.mk t2 p2) = .ok (llvmMakeBool true) ↔ p1 = p2) ∧
    llvmYafEq (.mk 0 0) (.mk llvmBoolTag 0) = .ok (llvmMakeBool true) := by
  refine ⟨fun _ _ _ _ => rfl, fun _ _ _ _ => rfl, ?_, rfl⟩
  intro t1 p1 t2 p2
  constructor
  · intro h
    by_contra hne
    simp [llvmYafEq, llvmMakeBool, hne] at h
  · intro h
    simp [llvmYafEq, h]

/-- Witness for C10: applying the theorem's equivalence at Int 5 and a
String-tagged value with payload 5. -/
theorem llvm_eq_ignores_tags_witness :
    llvmYafEq (.mk 0 5) (.mk 2 5) = .ok (llvmMakeBool true) :=
  (llvm_eq_ignores_tags.2.2.1 0 5 2 5).mpr rfl

/-- Append a statement at the end of a statement list: both backends
desugar the `for` body into the `while` form with the increment last
(c.rs 698-717, llvm.rs 1181-1219). -/
def blkAppend : Blk → Statement → Blk
  | .nil, s => .cons s .nil
  | .cons h t, s => .cons h (blkAppend t s)

/-- Function lookup by name in the program. -/
def findFn (P : Program) (name : String) : Option Function :=
  P.functions.find? (·.name = name)


/-! ## LLVM backend: observable semantics of the generated module

Direct evaluation over the AST, mirroring `LLVMCodeGenerator`'s lowering
(llvm.rs 986-1464): expressions are generated in place (no hoisting), both
operands of `And`/`Or` are evaluated before the bitwise combination
(llvm.rs 1330-1364), `print` prints its arguments in place with no
separators and a trailing newline and produces `undef` (llvm.rs 1280-1298),
and `return` with no value as well as falling off a function's end produce
`undef` (llvm.rs 1110-1111, 944-947).

The state carries the module globals (created for top-level assignments by
`create_global_variables`, llvm.rs 100-121), the string heap, and the
standard output.  Function locals are threaded alongside, mirroring
`local_variables`; lookups try locals first, then globals
(`get_variable`, llvm.rs 67-69). -/

structure LSt where
  globals : TMap LV
  strs : StrHeap
  out : String

/-- Modelled from the spec: the external printing primitive
`yaf_print_value_no_newline` (declared llvm.rs 214-215, implemented in
`runtime/yaf_runtime.c`, which is not under `src/`): Int payloads print in
decimal, String values print their content, Bool values print true/false. -/
def llvmPrintNoNewline (h : StrHeap) : LV → String
  | .mk t p =>
      if t = llvmStringTag then llvmStrContent h (.mk t p)
      else if t = llvmBoolTag then (if p ≠ 0 then "true" else "false")
      else ToString.toString p
  | .undef => ""

/-- One fuel level of the LLVM-module semantics: level `f + 1` executes
statements and blocks and calls functions with level `f` available for
loop re-entry and callees; level 0 runs out of fuel.  Built by structural
recursion on the fuel so that everything reduces definitionally. -/
structure LLevel where
  execS : Statement → TMap LV → LSt → Except RunErr (Option LV × TMap LV × LSt)
  execB : Blk → TMap LV → LSt → Except RunErr (Option LV × TMap LV × LSt)
  callFn : String → List LV → LSt → Except RunErr (LV × LSt)

mutual

/-- `generate_expression` (llvm.rs 1227-1464) composed with the semantics of
the generated instructions. -/
def llvmEvalE (P : Program) (prev : LLevel) :
    Expression → TMap LV → LSt → Except RunErr (LV × LSt)
  | .literal v, _, st =>
      match v with
      | .int n => .ok (llvmMakeInt n, st)
      -- llvm.rs 1246-1256: float literals are narrowed with `as i64` and
      -- built with `yaf_make_int`.
      | .float f => .ok (llvmMakeInt f, st)
      | .bool b => .ok (llvmMakeBool b, st)
      | .str s =>
          let (lv, h) := llvmAllocString st.strs s
          .ok (lv, { st with strs := h })
  | .varE name, env, st =>
      match env.lookup name with
      | Option.some v => .ok (v, st)
      | Option.none =>
          match st.globals.lookup name with
          | Option.some v => .ok (v, st)
          | Option.none => .error (.undefVar name)
  | .functionCall name args, env, st =>
      if name = "print" then do
        -- llvm.rs 1280-1298: each argument printed with no separator, one
        -- newline at the end; the expression's value is `get_undef()`.
        let st1 ← llvmPrintArgs P prev args env st
        .ok (.undef, { st1 with out := st1.out ++ "\n" })
      else if name = "concat" then do
        -- llvm.rs 1299-1302 routes these names to `generate_builtin_call`;
        -- `concat` calls the external `yaf_string_concat`.
        let (vs, st1) ← llvmEvalArgs P prev args env st
        match vs with
        | [a, b] =>
            let (v, h) := llvmStringConcat st1.strs a b
            .ok (v, { st1 with strs := h })
        | _ => .error (.extcall name)
      else if name = "str" ∨ name = "int" ∨ name = "float" ∨ name = "length" ∨
              name = "upper" ∨ name = "lower" then
        -- The routed library functions other than `concat` are either
        -- declared but implemented only in the missing external runtime, or
        -- not declared at all (lowering then aborts, llvm.rs 1633-1634).
        .error (.extcall name)
      else do
        let (vs, st1) ← llvmEvalArgs P prev args env st
        prev.callFn name vs st1
  | .binaryOp l op r, env, st => do
      let (lv, st1) ← llvmEvalE P prev l env st
      let (rv, st2) ← llvmEvalE P prev r env st1
      match op with
      -- llvm.rs 1330-1347: both operands already evaluated above; coerce
      -- each with `yaf_to_bool` and combine with a bitwise `and`.
      | .andO => do
          let bl ← llvmYafToBool lv
          let br ← llvmYafToBool rv
          .ok (llvmMakeBool (bl && br), st2)
      -- llvm.rs 1348-1364.
      | .orO => do
          let bl ← llvmYafToBool lv
          let br ← llvmYafToBool rv
          .ok (llvmMakeBool (bl || br), st2)
      | .add => do
          let (v, h) ← llvmYafAdd st2.strs lv rv
          .ok (v, { st2 with strs := h })
      | .subtract => do let v ← llvmYafSub lv rv; .ok (v, st2)
      | .multiply => do let v ← llvmYafMul lv rv; .ok (v, st2)
      | .divide => do let v ← llvmYafDiv lv rv; .ok (v, st2)
      | .modulo => do let v ← llvmYafMod lv rv; .ok (v, st2)
      | .equal => do let v ← llvmYafEq lv rv; .ok (v, st2)
      | .notEqual => do let v ← llvmYafNe lv rv; .ok (v, st2)
      | .less => do let v ← llvmYafLt lv rv; .ok (v, st2)
      | .lessEqual => do let v ← llvmYafLe lv rv; .ok (v, st2)
      | .greater => do let v ← llvmYafGt lv rv; .ok (v, st2)
      | .greaterEqual => do let v ← llvmYafGe lv rv; .ok (v, st2)
  | .unaryOp op a, env, st => do
      let (va, st1) ← llvmEvalE P prev a env st
      match op with
      -- llvm.rs 1379-1389: coerce, bitwise not, rebuild a Bool.
      | .notO => do
          let b ← llvmYafToBool va
          .ok (llvmMakeBool (!b), st1)
      -- llvm.rs 1390-1407: extract the payload, subtract it from 0, and
      -- rebuild with `yaf_make_int`.
      | .minus =>
          match va with
          | .mk _ p => .ok (llvmMakeInt (0 - p), st1)
          | .undef => .error .undefUse
  -- Array expressions generate real calls (llvm.rs 1411-1458); their
  -- memory behavior is modelled by `yafMakeArray`/`yafArraySet`/
  -- `yafArrayGet` above and is not threaded through program execution —
  -- no claim exercises arrays through a full program run.
  | .arrayLit _, _, _ => .error .arrays
  | .arrayAccess _ _, _, _ => .error .arrays
  | .builtinCall name args, env, st =>
      if name = "concat" then do
        let (vs, st1) ← llvmEvalArgs P prev args env st
        match vs with
        | [a, b] =>
            let (v, h) := llvmStringConcat st1.strs a b
            .ok (v, { st1 with strs := h })
        | _ => .error (.extcall name)
      else if name = "abs" ∨ name = "max" ∨ name = "min" ∨ name = "pow" ∨
              name = "length" ∨ name = "upper" ∨ name = "lower" ∨
              name = "read_file" ∨ name = "write_file" ∨ name = "file_exists" ∨
              name = "input" ∨ name = "input_prompt" ∨ name = "now" ∨
              name = "now_millis" ∨ name = "sleep" ∨ name = "str" ∨
              name = "string_to_int" ∨ name = "int_to_string" ∨ name = "int" ∨
              name = "float" then
        -- generate_builtin_call (llvm.rs 1466-1629): every other known name
        -- resolves to a runtime function that is external (missing
        -- implementation) or undeclared (lowering aborts).
        .error (.extcall name)
      else
        .error (.unknownBuiltin name)

def llvmEvalArgs (P : Program) (prev : LLevel) :
    ExpList → TMap LV → LSt → Except RunErr (List LV × LSt)
  | .nil, _, st => .ok ([], st)
  | .cons a rest, env, st => do
      let (v, st1) ← llvmEvalE P prev a env st
      let (vs, st2) ← llvmEvalArgs P prev rest env st1
      .ok (v :: vs, st2)

def llvmPrintArgs (P : Program) (prev : LLevel) :
    ExpList → TMap LV → LSt → Except RunErr LSt
  | .nil, _, st => .ok st
  | .cons a rest, env, st => do
      let (v, st1) ← llvmEvalE P prev a env st
      llvmPrintArgs P prev rest env
        { st1 with out := st1.out ++ llvmPrintNoNewline st1.strs v }

end

mutual

/-- `generate_statement` (llvm.rs 993-1225) composed with the semantics of
the generated block graph.  `If` branches to `then`/`else` and falls
through to the merge block; `While` re-tests its condition per iteration
(the back-edge descends one fuel level via `prev`); `For` generates
`init` once and then the `cond → body → increment → cond` graph
(llvm.rs 1181-1219), which behaves as the `while` form with the increment
as the final body statement — a `return` in the body leaves the function
before the increment block in both forms. -/
def llvmExecS (P : Program) (prev : LLevel) :
    Statement → TMap LV → LSt → Except RunErr (Option LV × TMap LV × LSt)
  | .declaration name _ value, env, st => do
      -- llvm.rs 996-1038: a fresh alloca registered under the name.
      let (v, st1) ← llvmEvalE P prev value env st
      .ok (Option.none, env.insert name v, st1)
  | .assignment name value, env, st => do
      -- llvm.rs 1039-1086: store to an existing local or global; otherwise
      -- create a fresh local (inside a function, including `main`).
      let (v, st1) ← llvmEvalE P prev value env st
      if env.contains name then
        .ok (Option.none, env.insert name v, st1)
      else if st1.globals.contains name then
        .ok (Option.none, env, { st1 with globals := st1.globals.insert name v })
      else
        .ok (Option.none, env.insert name v, st1)
  | .arrayAssignment _ _ _, _, _ => .error .arrays
  | .ifS cond thenB elseB, env, st => do
      let (cv, st1) ← llvmEvalE P prev cond env st
      let b ← llvmYafToBool cv
      if b then
        llvmExecB P prev thenB env st1
      else
        match elseB with
        | .none => .ok (Option.none, env, st1)
        | .some eb => llvmExecB P prev eb env st1
  | .whileS cond body, env, st => do
      let (cv, st1) ← llvmEvalE P prev cond env st
      let b ← llvmYafToBool cv
      if b then do
        let (r?, env1, st2) ← llvmExecB P prev body env st1
        match r? with
        | Option.some rv => .ok (Option.some rv, env1, st2)
        | Option.none => prev.execS (.whileS cond body) env1 st2
      else
        .ok (Option.none, env, st1)
  | .forS init cond incr body, env, st => do
      let (r?, env1, st1) ← llvmExecS P prev init env st
      match r? with
      | Option.some rv => .ok (Option.some rv, env1, st1)
      | Option.none => prev.execS (.whileS cond (blkAppend body incr)) env1 st1
  | .ret v?, env, st =>
      match v? with
      | Option.some e => do
          let (v, st1) ← llvmEvalE P prev e env st
          .ok (Option.some v, env, st1)
      -- llvm.rs 1110-1111: `return;` builds `ret undef`.
      | Option.none => .ok (Option.some .undef, env, st)
  | .exprS e, env, st => do
      let (_, st1) ← llvmEvalE P prev e env st
      .ok (Option.none, env, st1)

def llvmExecB (P : Program) (prev : LLevel) :
    Blk → TMap LV → LSt → Except RunErr (Option LV × TMap LV × LSt)
  | .nil, env, st => .ok (Option.none, env, st)
  | .cons s rest, env, st => do
      let (r?, env1, st1) ← llvmExecS P prev s env st
      match r? with
      | Option.some v => .ok (Option.some v, env1, st1)
      | Option.none => llvmExecB P prev rest env1 st1

end

/-- Parameter binding for the generated user functions (llvm.rs 932-938:
one alloca and store per parameter). -/
def llvmBindParams : List Parameter → List LV → TMap LV
  | [], _ => []
  | p :: ps, [] => (p.name, LV.undef) :: llvmBindParams ps []
  | p :: ps, v :: vs => (p.name, v) :: llvmBindParams ps vs

/-- `generate_function` (llvm.rs 921-951): run the body with the parameters
bound; if the final block has no terminator, `ret undef` is appended
(llvm.rs 944-947), so a fall-through call yields the undef value. -/
def llvmMkCallFn (P : Program)
    (execB : Blk → TMap LV → LSt → Except RunErr (Option LV × TMap LV × LSt)) :
    String → List LV → LSt → Except RunErr (LV × LSt) :=
  fun name args st =>
    match findFn P name with
    | Option.none => .error (.undefFn name)
    | Option.some fn => do
        let (r?, _, st1) ← execB fn.body (llvmBindParams fn.parameters args) st
        .ok (r?.getD .undef, st1)

def llvmLevelZero : LLevel :=
  { execS := fun _ _ _ => .error .fuel
    execB := fun _ _ _ => .error .fuel
    callFn := fun _ _ _ => .error .fuel }

def llvmMkLevel (P : Program) (prev : LLevel) : LLevel :=
  { execS := llvmExecS P prev
    execB := llvmExecB P prev
    callFn := llvmMkCallFn P (llvmExecB P prev) }

def llvmLevelAt (P : Program) : Nat → LLevel
  | 0 => llvmLevelZero
  | f + 1 => llvmMkLevel P (llvmLevelAt P f)

def llvmExecStmtAt (P : Program) (f : Nat) :
    Statement → TMap LV → LSt → Except RunErr (Option LV × TMap LV × LSt) :=
  (llvmLevelAt P f).execS

/-- `create_global_variables` (llvm.rs 100-121): every top-level
`Assignment` name becomes a zero-initialized module global
(`const_zero` = tag 0, payload 0). -/
def llvmCollectGlobals : Blk → TMap LV → TMap LV
  | .nil, g => g
  | .cons s rest, g =>
      match s with
      | .assignment name _ =>
          llvmCollectGlobals rest (if g.contains name then g else g.insert name (.mk 0 0))
      | _ => llvmCollectGlobals rest g

/-- Execute the generated module's `main` (llvm.rs 953-984), returning the
final locals and state (globals, heap, output). -/
def llvmRunProgramFull (f : Nat) (P : Program) : Except RunErr (TMap LV × LSt) := do
  let st0 : LSt := { globals := llvmCollectGlobals P.main [], strs := [], out := "" }
  let (_, env, st) ← (llvmLevelAt P f).execB P.main [] st0
  .ok (env, st)

/-- The observable standard output of the native build of `P`. -/
def llvmRunProgram (f : Nat) (P : Program) : Except RunErr String :=
  (llvmRunProgramFull f P).map (fun r => r.2.out)

/-! ## Concrete claim programs

All of them pass the embedded type checker, so they are valid inputs to the
code generator. -/

/-- `fn print_true() -> bool { print(7); return true; }` -/
def fnPrint7 : Function :=
  { name := "f", parameters := [], returnType := .bool,
    body := .cons (.exprS (.functionCall "print" (.cons (.literal (.int 7)) .nil)))
      (.cons (.ret (Option.some (.literal (.bool true)))) .nil) }

/-- `fn g() -> int { if (false) { return 1; } }` — a return in only one
branch of the `if`; calling it takes the branch without a return. -/
def fnG4 : Function :=
  { name := "g", parameters := [], returnType := .int,
    body := .cons (.ifS (.literal (.bool false))
      (.cons (.ret (Option.some (.literal (.int 1)))) .nil) .none) .nil }

/-- `print("a" + "b")` — a type-checked program (String + String) on which
the two backends' outputs differ. -/
def progC1 : Program :=
  { functions := [],
    main := .cons (.exprS (.functionCall "print"
      (.cons (.binaryOp (.literal (.str "a")) .add (.literal (.str "b"))) .nil))) .nil }

/-- `x = g()` where `g` falls off its end. -/
def prog4 : Program :=
  { functions := [fnG4],
    main := .cons (.assignment "x" (.functionCall "g" .nil)) .nil }

/-- `x = (false && f())` where `f` prints 7 and returns true. -/
def prog6 : Program :=
  { functions := [fnPrint7],
    main := .cons (.assignment "x"
      (.binaryOp (.literal (.bool false)) .andO (.functionCall "f" .nil))) .nil }

/-- `y = (true || f())`. -/
def prog6b : Program :=
  { functions := [fnPrint7],
    main := .cons (.assignment "y"
      (.binaryOp (.literal (.bool true)) .orO (.functionCall "f" .nil))) .nil }

/-- `for (i = 0; i <= 3; i = i + 1) { print(i) }`. -/
def prog7 : Program :=
  { functions := [],
    main := .cons (.forS (.assignment "i" (.literal (.int 0)))
      (.binaryOp (.varE "i") .lessEqual (.literal (.int 3)))
      (.assignment "i" (.binaryOp (.varE "i") .add (.literal (.int 1))))
      (.cons (.exprS (.functionCall "print" (.cons (.varE "i") .nil))) .nil)) .nil }

/-! ## Claim C1: backend equivalence

`CodeGenerator::generate` (c.rs 56-219) writes the emitted file in this
order: the `yaf_value_t` type and prototypes, a first set of primitive
definitions (c.rs 91-191), the user functions' prototypes, a second set of
definitions emitted by `generate_helper_functions` (called unconditionally
at c.rs 203; its definitions span c.rs 222-581), the user function
definitions (`yaf_func_<name>`, c.rs 605-636), and `main` (c.rs 206-216).
`compile_with_c` (main.rs 235-258) hands exactly this file to clang.  The
definitions below list the names of the function definitions the emitted
translation unit contains, in emission order. -/

/-- The primitive definitions `generate` emits inline (c.rs 91-191). -/
def cGenerateInlineDefs : List String :=
  ["yaf_to_bool", "yaf_eq", "yaf_lt", "yaf_gt", "yaf_le", "yaf_ge",
   "yaf_add", "yaf_sub", "yaf_mul", "yaf_div", "yaf_mod", "yaf_make_array"]

/-- The definitions `generate_helper_functions` emits (c.rs 222-581). -/
def cHelperDefs : List String :=
  ["yaf_print_value", "yaf_make_int", "yaf_make_bool", "yaf_make_string",
   "yaf_make_void", "yaf_add", "yaf_sub", "yaf_mul", "yaf_div", "yaf_mod",
   "yaf_eq", "yaf_lt", "yaf_le", "yaf_gt", "yaf_ge", "yaf_to_bool",
   "yaf_math_abs", "yaf_math_max", "yaf_math_min", "yaf_math_pow",
   "yaf_string_length", "yaf_string_upper", "yaf_string_lower",
   "yaf_string_concat"]

/-- The names of the function definitions in the translation unit the C
backend emits for `p`, in order. -/
def cEmittedDefNames (p : Program) : List String :=
  cGenerateInlineDefs ++ cHelperDefs ++
    p.functions.map (fun f => "yaf_func_" ++ f.name) ++ ["main"]

/-- C1 evaluated at the failing input: for every input program the C
backend's emitted translation unit defines `yaf_add` twice (and likewise
`yaf_to_bool`, `yaf_eq`, `yaf_lt`, `yaf_gt`, `yaf_le`, `yaf_ge`,
`yaf_sub`, `yaf_mul`, `yaf_div`, `yaf_mod`) — once from `generate` itself
(c.rs 91-191) and once from `generate_helper_functions` (c.rs 295-452).
Two definitions of one function make the translation unit ill-formed C,
and `compile_with_c` (main.rs 252-258) feeds exactly this file to clang,
so the C-backend build fails for every program and exhibits no observable
behavior, while the native module of the same type-checked program (here
`print("a" + "b")`) runs and prints: the backends cannot preserve
identical observable semantics. -/
theorem c_backend_emits_conflicting_definitions :
    (∀ p : Program,
        2 ≤ (cEmittedDefNames p).count "yaf_add" ∧
        2 ≤ (cEmittedDefNames p).count "yaf_div" ∧
        ¬ (cEmittedDefNames p).Nodup) ∧
    typecheckProgram progC1 = .ok () ∧
    llvmRunProgram 8 progC1 = .ok "ab\n" := by
  refine ⟨?_, by rfl, by rfl⟩
  intro p
  have hadd : 2 ≤ (cEmittedDefNames p).count "yaf_add" := by
    simp only [cEmittedDefNames, List.count_append]
    have h1 : cGenerateInlineDefs.count "yaf_add" = 1 := by rfl
    have h2 : cHelperDefs.count "yaf_add" = 1 := by rfl
    omega
  refine ⟨hadd, ?_, ?_⟩
  · simp only [cEmittedDefNames, List.count_append]
    have h1 : cGenerateInlineDefs.count "yaf_div" = 1 := by rfl
    have h2 : cHelperDefs.count "yaf_div" = 1 := by rfl
    omega
  · intro h
    have hle := List.nodup_iff_count_le_one.mp h "yaf_add"
    omega

/-- Source-level agreement of the integer cores: for Int operands within
the C backend's 32-bit range (and results in range, where an operation can
overflow), the primitive bodies the C backend emits (c.rs 91-191) and the
native backend's generated primitives compute the same mathematical
results — C `Int(n)` corresponds to the native `{tag 0, n}` and C `Bool(b)`
to `yaf_make_bool(b)`.  This is an agreement of the primitive definitions
as written; the C backend's emitted translation unit as a whole never
compiles. -/
theorem backend_int_primitive_agreement (a b : Int)
    (ha : inRange32 a) (hb : inRange32 b) :
    (inRange32 (a + b) →
        cYafAdd (.int a) (.int b) = .int (a + b) ∧
        ∀ h : StrHeap, llvmYafAdd h (.mk 0 a) (.mk 0 b) = .ok (.mk 0 (a + b), h)) ∧
    (inRange32 (a - b) →
        cYafSub (.int a) (.int b) = .int (a - b) ∧
        llvmYafSub (.mk 0 a) (.mk 0 b) = .ok (.mk 0 (a - b))) ∧
    (inRange32 (a * b) →
        cYafMul (.int a) (.int b) = .int (a * b) ∧
        llvmYafMul (.mk 0 a) (.mk 0 b) = .ok (.mk 0 (a * b))) ∧
    (b ≠ 0 → inRange32 (Int.tdiv a b) →
        cYafDiv (.int a) (.int b) = .int (Int.tdiv a b) ∧
        llvmYafDiv (.mk 0 a) (.mk 0 b) = .ok (.mk 0 (Int.tdiv a b))) ∧
    (b ≠ 0 → inRange32 (Int.tmod a b) →
        cYafMod (.int a) (.int b) = .int (Int.tmod a b) ∧
        llvmYafMod (.mk 0 a) (.mk 0 b) = .ok (.mk 0 (Int.tmod a b))) ∧
    (cYafEq (.int a) (.int b) = .bool (decide (a = b)) ∧
        llvmYafEq (.mk 0 a) (.mk 0 b) = .ok (llvmMakeBool (decide (a = b)))) ∧
    (cYafLt (.int a) (.int b) = .bool (decide (a < b)) ∧
        llvmYafLt (.mk 0 a) (.mk 0 b) = .ok (llvmMakeBool (decide (a < b)))) ∧
    (cYafLe (.int a) (.int b) = .bool (decide (a ≤ b)) ∧
        llvmYafLe (.mk 0 a) (.mk 0 b) = .ok (llvmMakeBool (decide (a ≤ b)))) ∧
    (cYafGt (.int a) (.int b) = .bool (decide (a > b)) ∧
        llvmYafGt (.mk 0 a) (.mk 0 b) = .ok (llvmMakeBool (decide (a > b)))) ∧
    (cYafGe (.int a) (.int b) = .bool (decide (a ≥ b)) ∧
        llvmYafGe (.mk 0 a) (.mk 0 b) = .ok (llvmMakeBool (decide (a ≥ b)))) := by
  obtain ⟨ha1, ha2⟩ := ha
  obtain ⟨hb1, hb2⟩ := hb
  refine ⟨?_, ?_, ?_, ?_, ?_, ⟨rfl, rfl⟩, ⟨rfl, rfl⟩, ⟨rfl, rfl⟩, ⟨rfl, rfl⟩, ⟨rfl, rfl⟩⟩
  · intro hr
    obtain ⟨hr1, hr2⟩ := hr
    constructor
    · simp only [cYafAdd]
      have : wrap32 (a + b) = a + b := by unfold wrap32; omega
      rw [this]
    · intro h
      simp only [llvmYafAdd, llvmStringTag, llvmMakeInt]
      have h2 : ¬((2 : Int) = 2 ∨ (2 : Int) = 2) → True := fun _ => trivial
      have : wrap64 (a + b) = a + b := by unfold wrap64; omega
      simp [this]
  · intro hr
    obtain ⟨hr1, hr2⟩ := hr
    refine ⟨?_, ?_⟩
    · simp only [cYafSub]
      have : wrap32 (a - b) = a - b := by unfold wrap32; omega
      rw [this]
    · simp only [llvmYafSub, llvmMakeInt]
      have : wrap64 (a - b) = a - b := by unfold wrap64; omega
      rw [this]
  · intro hr
    obtain ⟨hr1, hr2⟩ := hr
    refine ⟨?_, ?_⟩
    · simp only [cYafMul]
      have : wrap32 (a * b) = a * b := by unfold wrap32; omega
      rw [this]
    · simp only [llvmYafMul, llvmMakeInt]
      have : wrap64 (a * b) = a * b := by unfold wrap64; omega
      rw [this]
  · intro hbz hr
    obtain ⟨hr1, hr2⟩ := hr
    refine ⟨?_, ?_⟩
    · simp only [cYafDiv, if_pos hbz]
      have : wrap32 (Int.tdiv a b) = Int.tdiv a b := by unfold wrap32; omega
      rw [this]
    · simp only [llvmYafDiv, if_neg hbz, llvmMakeInt]
      have : wrap64 (Int.tdiv a b) = Int.tdiv a b := by unfold wrap64; omega
      rw [this]
  · intro hbz hr
    obtain ⟨hr1, hr2⟩ := hr
    refine ⟨?_, ?_⟩
    · simp only [cYafMod, if_pos hbz]
      have : wrap32 (Int.tmod a b) = Int.tmod a b := by unfold wrap32; omega
      rw [this]
    · simp only [llvmYafMod, if_neg hbz, llvmMakeInt]
      have : wrap64 (Int.tmod a b) = Int.tmod a b := by unfold wrap64; omega
      rw [this]

/-- The primitive agreement instantiated at a = 9, b = 4. -/
theorem backend_int_primitive_agreement_witness :
    cYafAdd (.int 9) (.int 4) = .int 13 ∧
    llvmYafDiv (.mk 0 9) (.mk 0 4) = .ok (.mk 0 2) := by
  have h := backend_int_primitive_agreement 9 4 (by constructor <;> decide)
    (by constructor <;> decide)
  exact ⟨(h.1 (by constructor <;> decide)).1,
    (h.2.2.2.1 (by decide) (by constructor <;> decide)).2⟩

/-! ## Claim C4: implicit returns -/

/-- C4 evaluated at the failing input: calling `g` (a return only in the
untaken branch of its `if`) yields `undef` — an uninitialized struct value,
not equal to any tagged Value — in the native backend (`ret undef`,
llvm.rs 944-947).  (The C backend's `generate_function` textually appends
`return yaf_make_void();` (c.rs 628), but its emitted file never compiles
— see the C1 development above — so the native behavior is the only
observable one, and it violates the claim.) -/
theorem implicit_return_behavior :
    typecheckProgram prog4 = .ok () ∧
    (llvmRunProgramFull 8 prog4).map (fun r => r.2.globals.lookup "x") =
      .ok (Option.some LV.undef) ∧
    (∀ t p : Int, (LV.undef : LV) ≠ .mk t p) := by
  refine ⟨by rfl, by rfl, fun t p h => by cases h⟩

/-! ## Claim C6: And/Or operand evaluation -/

/-- C6 counterexample: the claim asserts that the observable side effects
of the second operand always execute; under the C backend they never can.
The C backend emits the short-circuiting C operators `&&`/`||`
(c.rs 821-826), and in any case its emitted translation unit defines
`yaf_to_bool`, `yaf_add` and nine further primitives twice (c.rs 91-191 and
again c.rs 295-452), so clang (main.rs 252-258) rejects the file:
`x = (false && f())` — a type-checked program whose second operand prints —
never executes under the C backend at all. -/
theorem and_or_c_side_never_runs :
    typecheckProgram prog6 = .ok () ∧
    (cEmittedDefNames prog6).count "yaf_to_bool" = 2 ∧
    (cEmittedDefNames prog6).count "yaf_add" = 2 ∧
    ¬ (cEmittedDefNames prog6).Nodup := by
  refine ⟨by rfl, by rfl, by rfl, by decide⟩

/-- C6 amended: in the native (LLVM) backend both operands of `And`/`Or`
are always evaluated — `x = (false && f())` runs `f`'s print even though
the first operand already determines the result, and `y = (true || f())`
likewise — and the stored result is the logical combination of the boolean
coercions of the two operands (llvm.rs 1330-1364).  The C backend instead
emits C's short-circuiting `&&`/`||` (c.rs 821-826), and its emitted
program never compiles (previous theorem), so no C-side evaluation
occurs. -/
theorem and_or_evaluation_amended :
    typecheckProgram prog6 = .ok () ∧
    typecheckProgram prog6b = .ok () ∧
    llvmRunProgram 8 prog6 = .ok "7\n" ∧
    (llvmRunProgramFull 8 prog6).map (fun r => r.2.globals.lookup "x") =
      .ok (Option.some (llvmMakeBool false)) ∧
    llvmRunProgram 8 prog6b = .ok "7\n" ∧
    (llvmRunProgramFull 8 prog6b).map (fun r => r.2.globals.lookup "y") =
      .ok (Option.some (llvmMakeBool true)) := by
  refine ⟨by rfl, by rfl, by rfl, by rfl, by rfl, by rfl⟩

/-! ## Claim C7: for-loop lowering -/

/-- C7 amended, native side: `for (i = 0; i <= 3; i = i + 1) { print(i) }`
prints exactly `0 1 2 3`, one per line, in order (the body — a single
print — executes exactly four times); and a `for` loop whose condition is
literally false executes only its initializer — its body and increment run
zero times — for every initializer, increment, body, environment and
state, at every fuel level that can evaluate the initializer (`f + 2`). -/
theorem for_loop_semantics :
    typecheckProgram prog7 = .ok () ∧
    llvmRunProgram 8 prog7 = .ok "0\n1\n2\n3\n" ∧
    (∀ (P : Program) (f : Nat) (init incr : Statement) (body : Blk)
        (env : TMap LV) (st : LSt),
        llvmExecStmtAt P (f + 2) (.forS init (.literal (.bool false)) incr body) env st =
        llvmExecStmtAt P (f + 2) init env st) := by
  refine ⟨by rfl, by rfl, ?_⟩
  intro P f init incr body env st
  show llvmExecS P (llvmLevelAt P (f + 1)) _ env st =
    llvmExecS P (llvmLevelAt P (f + 1)) init env st
  simp only [llvmExecS]
  rcases h : llvmExecS P (llvmLevelAt P (f + 1)) init env st with e | ⟨r?, env1, st1⟩
  · rfl
  · rcases r? with _ | v
    · rfl
    · rfl

/-- C7 counterexample: the structural description of the lowering matches
both backends' emitted text (c.rs 698-717, llvm.rs 1181-1219), but the
claimed execution — the body running exactly four times, printing
`0 1 2 3` — can only occur under the native backend.  The C backend's
emitted translation unit for the loop program defines eleven primitives
twice (c.rs 91-191 and again c.rs 295-452), clang rejects it
(main.rs 252-258), and no C-side execution of the loop ever happens. -/
theorem for_loop_c_side_never_runs :
    typecheckProgram prog7 = .ok () ∧
    (cEmittedDefNames prog7).count "yaf_add" = 2 ∧
    ¬ (cEmittedDefNames prog7).Nodup := by
  refine ⟨by rfl, by rfl, by decide⟩

/-! ## Claim C5: duplicate declarations -/

/-- `int x = 1; int x = 2;` in one scope. -/
def dupProg : Program :=
  { functions := [],
    main := .cons (.declaration "x" .int (.literal (.int 1)))
      (.cons (.declaration "x" .int (.literal (.int 2))) .nil) }

/-- `if (true) { int x = 1; } int x = 2;` — the second declaration comes
after the enclosing scope has exited. -/
def scopedProg : Program :=
  { functions := [],
    main := .cons (.ifS (.literal (.bool true))
        (.cons (.declaration "x" .int (.literal (.int 1))) .nil) .none)
      (.cons (.declaration "x" .int (.literal (.int 2))) .nil) }

/-- C5 counterexample: re-declaring a name in the same scope fails, but the
failure is `YafError::TypeError("Variable 'x' is already declared")`
(typechecker.rs 107-111) — the error enumeration (`src/error.rs`, embedded
as `YafError` above) contains no `DuplicateDeclaration` kind at all, so the
claim's stated error kind does not exist in the code. -/
theorem duplicate_declaration_is_type_error :
    typecheckProgram dupProg = .error (.typeError "Variable 'x' is already declared") := by
  rfl

/-- C5 amended: declaring a variable of the same name twice in the same
lexical scope fails with a `TypeError` whose message is
"Variable '<name>' is already declared" (there is no `DuplicateDeclaration`
error kind); declaring the same name again after the enclosing scope has
exited succeeds (the checker restores the variable map around nested
blocks, typechecker.rs 176-186). -/
theorem duplicate_declaration_amended :
    typecheckProgram dupProg = .error (.typeError "Variable 'x' is already declared") ∧
    typecheckProgram scopedProg = .ok () := by
  exact ⟨by rfl, by rfl⟩

/-! ## LLVM backend: the basic-block builder (claim C8)

A model of the block construction performed by `generate_statement` and
`generate_function` (llvm.rs 921-1225).  A block is its item list; an item
is a non-terminator instruction or a terminator.  The builder appends to the
end of the current block (`build_call`, `build_store`, `build_return`,
`build_*_branch` all insert at the insertion point, which the generator
always keeps at a block end), except that `Declaration`/`Assignment` insert
their `alloca` before the first instruction of the entry block
(llvm.rs 1004-1019).  `get_terminator()` is "the last instruction, if it is
a terminator" — which is what the generator's
`get_insert_block().get_terminator().is_none()` guards test.

`generate_expression` emits calls, loads and stores but never creates a
block, never moves the insertion point, and never emits a terminator (even
`And`/`Or` are lowered without branching, llvm.rs 1330-1364), so its effect
on the block graph is a sequence of instruction appends; `exprCost` counts
them (the exact counts are irrelevant to the block invariant). -/

inductive BItem where
  | instr
  | term
deriving DecidableEq

structure BState where
  blocks : List (List BItem)
  cur : Nat
  locals : List String
  globals : List String
deriving DecidableEq

def BState.curItems (st : BState) : List BItem := st.blocks.getD st.cur []

def BState.appendCur (st : BState) (it : BItem) : BState :=
  { st with blocks := st.blocks.set st.cur (st.curItems ++ [it]) }

def BState.appendInstrs (st : BState) : Nat → BState
  | 0 => st
  | n + 1 => (st.appendInstrs n).appendCur .instr

def BState.prependEntry (st : BState) : BState :=
  { st with blocks := st.blocks.set 0 (.instr :: st.blocks.getD 0 []) }

def BState.newBlock (st : BState) : BState × Nat :=
  ({ st with blocks := st.blocks ++ [[]] }, st.blocks.length)

def BState.position (st : BState) (i : Nat) : BState := { st with cur := i }

/-- `BasicBlock::get_terminator().is_some()`: the last instruction is a
terminator. -/
def hasTerm (l : List BItem) : Bool :=
  match l.getLast? with
  | Option.some .term => true
  | _ => false

/-- No terminator anywhere in the block. -/
def noTerm (l : List BItem) : Bool := l.all (fun it => !(it == .term))

/-- A finished well-formed block: exactly one terminator, as the last item,
with no instruction after it. -/
def termWF (l : List BItem) : Bool := noTerm l.dropLast && hasTerm l

mutual

/-- Instruction count of `generate_expression` (llvm.rs 1227-1464). -/
def exprCost : Expression → Nat
  | .literal _ => 2
  | .varE _ => 1
  | .functionCall _ args => expListCost args + expListLen args + 2
  | .builtinCall _ args => expListCost args + 1
  | .binaryOp l op r =>
      exprCost l + exprCost r +
        (match op with
         | .andO => 4
         | .orO => 4
         | _ => 1)
  | .unaryOp _ a => exprCost a + 2
  | .arrayLit elems => expListCost elems + 2 * expListLen elems + 1
  | .arrayAccess a i => exprCost a + exprCost i + 1

def expListCost : ExpList → Nat
  | .nil => 0
  | .cons e rest => exprCost e + expListCost rest

def expListLen : ExpList → Nat
  | .nil => 0
  | .cons _ rest => 1 + expListLen rest

end

/-- `generate_expression`'s effect on the block graph: instruction appends
to the current block. -/
def genExpr (e : Expression) (st : BState) : BState :=
  st.appendInstrs (exprCost e)

/-- The generator's guarded merge/back-edge append: branch only if the
current block does not already end with a terminator
(`get_insert_block().get_terminator().is_none()`). -/
def bguard (st : BState) : BState :=
  if hasTerm st.curItems then st else st.appendCur .term

mutual

/-- `generate_statement`'s block construction (llvm.rs 993-1225).  Comments
give the lines of the corresponding builder calls.  The merge/back-edge
branches after `If`/`While`/`For` bodies are appended only when the current
block has no terminator; the `br` entering a loop header, the `br` after a
`For` increment, and `Return`'s `ret` are appended unconditionally. -/
def genStmtB : Statement → BState → BState
  | .declaration name _ value, st =>
      -- llvm.rs 996-1037: value, alloca at entry top, store; register local.
      let st1 := (genExpr value st).prependEntry.appendCur .instr
      { st1 with locals := name :: st1.locals }
  | .assignment name value, st =>
      -- llvm.rs 1039-1085.
      let st1 := genExpr value st
      if st1.locals.contains name || st1.globals.contains name then
        st1.appendCur .instr
      else
        let st2 := st1.prependEntry.appendCur .instr
        { st2 with locals := name :: st2.locals }
  | .arrayAssignment _ index value, st =>
      -- llvm.rs 1087-1104: load the array, index, value, call the setter.
      ((genExpr value (genExpr index (st.appendCur .instr)))).appendCur .instr
  | .ifS cond thenB elseB, st =>
      let st1 := (genExpr cond st).appendCur .instr
      let (st2, thenIdx) := st1.newBlock
      let (st3, _elseIdxPre) := st2.newBlock
      let elseIdx := st2.blocks.length
      let (st4, mergeIdx) := st3.newBlock
      let st5 := st4.appendCur .term                                -- llvm.rs 1126 cond_br
      let st6 := genBlkB thenB (st5.position thenIdx)
      let st7 := bguard st6                                         -- llvm.rs 1133-1135
      let st8 := genOBlkB elseB (st7.position elseIdx)
      let st9 := bguard st8                                         -- llvm.rs 1144-1146
      st9.position mergeIdx
  | .whileS cond body, st =>
      let (st1, loopIdx) := st.newBlock
      let (st2, bodyIdx) := st1.newBlock
      let (st3, afterIdx) := st2.newBlock
      let st4 := st3.appendCur .term                                -- llvm.rs 1156 br loop
      let st5 := ((genExpr cond (st4.position loopIdx)).appendCur .instr).appendCur .term
                                                                    -- llvm.rs 1160-1167
      let st6 := genBlkB body (st5.position bodyIdx)
      let st7 := bguard st6                                         -- llvm.rs 1174-1176
      st7.position afterIdx
  | .forS init cond incr body, st =>
      let st0 := genStmtB init st                                   -- llvm.rs 1183
      let (st1, loopIdx) := st0.newBlock
      let (st2, bodyIdx) := st1.newBlock
      let (st3, incIdx) := st2.newBlock
      let (st4, afterIdx) := st3.newBlock
      let st5 := st4.appendCur .term                                -- llvm.rs 1190 br loop
      let st6 := ((genExpr cond (st5.position loopIdx)).appendCur .instr).appendCur .term
                                                                    -- llvm.rs 1193-1201
      let st7 := genBlkB body (st6.position bodyIdx)
      let st8 := bguard st7                                         -- llvm.rs 1208-1210
      let st9 := genStmtB incr (st8.position incIdx)
      let st10 := st9.appendCur .term                               -- llvm.rs 1215 br loop, unguarded
      st10.position afterIdx
  | .ret v?, st =>
      -- llvm.rs 1105-1113: value (if any), then `ret` — unguarded.
      match v? with
      | Option.some e => (genExpr e st).appendCur .term
      | Option.none => st.appendCur .term
  | .exprS e, st => genExpr e st

/-- `generate_block` (llvm.rs 986-991): lowers every statement of the list,
with no stop after a terminator has been emitted. -/
def genBlkB : Blk → BState → BState
  | .nil, st => st
  | .cons s rest, st => genBlkB rest (genStmtB s st)

def genOBlkB : OBlk → BState → BState
  | .none, st => st
  | .some b, st => genBlkB b st

end

/-- `generate_function` (llvm.rs 921-951): one entry block, two
instructions per parameter (alloca + store), the body, then a guarded
`ret undef` if the final block has no terminator. -/
def genFunctionB (f : Function) : BState :=
  let st0 : BState :=
    { blocks := [[]], cur := 0, locals := f.parameters.map (·.name), globals := [] }
  let st1 := st0.appendInstrs (2 * f.parameters.length)
  let st2 := genBlkB f.body st1
  bguard st2

def Statement.isRet : Statement → Bool
  | .ret _ => true
  | _ => false

mutual

/-- No dead code: within every statement list, a `Return` appears only as
the last statement, and a `For` loop's initializer and increment are not
`Return` statements. -/
def okStmt : Statement → Bool
  | .ifS _ t e => okBlk t && okOBlk e
  | .whileS _ b => okBlk b
  | .forS i _ inc b => !i.isRet && okStmt i && !inc.isRet && okStmt inc && okBlk b
  | _ => true

def okBlk : Blk → Bool
  | .nil => true
  | .cons s .nil => okStmt s
  | .cons s rest => !s.isRet && okStmt s && okBlk rest

def okOBlk : OBlk → Bool
  | .none => true
  | .some b => okBlk b

end

mutual

/-- Whether lowering this block leaves the builder on a terminated block
(the block's last statement is a `Return`). -/
def blkEndsRet : Blk → Bool
  | .nil => false
  | .cons s .nil => s.isRet
  | .cons _ rest => blkEndsRet rest

def oblkEndsRet : OBlk → Bool
  | .none => false
  | .some b => blkEndsRet b

end

/-- The builder invariant carried between statements: the insertion point
is a real block, and the entry block, once abandoned, stays finished. -/
def BInv (st : BState) : Prop :=
  st.cur < st.blocks.length ∧
  (st.cur ≠ 0 → termWF (st.blocks.getD 0 []) = true)

/-- What one lowering step guarantees: the invariant again; the block list
only grows; the insertion point is unmoved or on a fresh block; untouched
blocks (neither current nor entry) are unchanged; the entry block receives
only instruction prepends; every block that is neither current nor the
entry is finished (`termWF`) unless it is an untouched pre-existing block;
and the current block is terminator-free — or finished, when the statement
was a `Return`. -/
def StPost (st st' : BState) (retc : Bool) : Prop :=
  BInv st' ∧
  st.blocks.length ≤ st'.blocks.length ∧
  (st'.cur = st.cur ∨ st.blocks.length ≤ st'.cur) ∧
  (∀ i, i < st.blocks.length → i ≠ st.cur → i ≠ 0 →
      st'.blocks.getD i [] = st.blocks.getD i []) ∧
  (st.cur ≠ 0 → ∃ pre : List BItem, noTerm pre = true ∧
      st'.blocks.getD 0 [] = pre ++ st.blocks.getD 0 []) ∧
  (∀ i, i < st'.blocks.length → i ≠ st'.cur → i ≠ 0 →
      termWF (st'.blocks.getD i []) = true ∨
        (i < st.blocks.length ∧ i ≠ st.cur ∧
          st'.blocks.getD i [] = st.blocks.getD i [])) ∧
  (if retc then termWF st'.curItems = true else noTerm st'.curItems = true)

/-! ### Block-list and builder-operation lemmas -/

theorem getD_set_self {α} (l : List α) (i : Nat) (x d : α) (h : i < l.length) :
    (l.set i x).getD i d = x := by
  rw [List.getD_eq_getElem?_getD, List.getElem?_set_self h]
  rfl

theorem getD_set_ne {α} (l : List α) (i j : Nat) (x d : α) (h : j ≠ i) :
    (l.set i x).getD j d = l.getD j d := by
  rw [List.getD_eq_getElem?_getD, List.getElem?_set_ne (Ne.symm h),
    List.getD_eq_getElem?_getD]

theorem getD_append_left {α} (l l' : List α) (i : Nat) (d : α) (h : i < l.length) :
    (l ++ l').getD i d = l.getD i d := by
  rw [List.getD_eq_getElem?_getD, List.getD_eq_getElem?_getD, List.getElem?_append,
    if_pos h]

theorem getD_out_of_range {α} (l : List α) (i : Nat) (d : α) (h : l.length ≤ i) :
    l.getD i d = d := by
  rw [List.getD_eq_getElem?_getD, List.getElem?_eq_none h]
  rfl

theorem getD_append_nil_ne {α} (l : List α) (x : α) (i : Nat) (d : α)
    (h : i ≠ l.length) : (l ++ [x]).getD i d = l.getD i d := by
  rcases Nat.lt_or_ge i l.length with hlt | hge
  · exact getD_append_left l [x] i d hlt
  · have h1 : l.length < i := lt_of_le_of_ne hge (fun he => h he.symm)
    rw [getD_out_of_range l i d (le_of_lt h1),
      getD_out_of_range (l ++ [x]) i d (by simp; omega)]

theorem getD_append_fresh {α} (l : List α) (x : α) (d : α) :
    (l ++ [x]).getD l.length d = x := by
  rw [List.getD_eq_getElem?_getD, List.getElem?_append_right (le_refl l.length)]
  simp

/-! Item-list facts. -/

theorem noTerm_append (l l' : List BItem) :
    noTerm (l ++ l') = (noTerm l && noTerm l') := by
  simp [noTerm, List.all_append]

theorem noTerm_replicate (n : Nat) : noTerm (List.replicate n .instr) = true := by
  simp [noTerm]

theorem noTerm_singleton_instr : noTerm [BItem.instr] = true := by decide

theorem hasTerm_concat (l : List BItem) (it : BItem) :
    hasTerm (l ++ [it]) = (it == .term) := by
  cases it <;> simp [hasTerm, List.getLast?_concat]

theorem hasTerm_of_noTerm {l : List BItem} (h : noTerm l = true) : hasTerm l = false := by
  unfold hasTerm
  rcases hl : l.getLast? with _ | it
  · rfl
  · have hmem : it ∈ l := List.mem_of_mem_getLast? hl
    have := List.all_eq_true.mp h it hmem
    cases it
    · rfl
    · simp at this

theorem termWF_concat_term {l : List BItem} (h : noTerm l = true) :
    termWF (l ++ [.term]) = true := by
  simp [termWF, List.dropLast_concat, h, hasTerm_concat]

theorem termWF_nonempty {l : List BItem} (h : termWF l = true) : l ≠ [] := by
  intro he
  subst he
  simp [termWF, hasTerm] at h

theorem termWF_cons_instr {l : List BItem} (h : termWF l = true) :
    termWF (.instr :: l) = true := by
  rcases l with _ | ⟨a, l'⟩
  · exact absurd rfl (termWF_nonempty h)
  · simp only [termWF, Bool.and_eq_true] at h ⊢
    refine ⟨?_, ?_⟩
    · simpa [List.dropLast, noTerm] using h.1
    · simpa [hasTerm, List.getLast?] using h.2

theorem termWF_prepend {pre l : List BItem} (hp : noTerm pre = true)
    (h : termWF l = true) : termWF (pre ++ l) = true := by
  induction pre with
  | nil => simpa using h
  | cons a rest ih =>
      have ha : a = .instr := by
        cases a
        · rfl
        · simp [noTerm] at hp
      have hr : noTerm rest = true := by
        simp [noTerm] at hp ⊢
        intro x hx
        exact hp.2 x hx
      subst ha
      simpa using termWF_cons_instr (ih hr)

theorem noTerm_dropLast_of_noTerm {l : List BItem} (h : noTerm l = true) :
    noTerm l.dropLast = true := by
  simp only [noTerm, List.all_eq_true] at h ⊢
  intro x hx
  exact h x (List.dropLast_subset l hx)

/-! Builder-operation effect lemmas. -/

theorem appendCur_cur (st : BState) (it : BItem) : (st.appendCur it).cur = st.cur := rfl

theorem appendCur_len (st : BState) (it : BItem) :
    (st.appendCur it).blocks.length = st.blocks.length := by
  simp [BState.appendCur]

theorem appendCur_curItems (st : BState) (it : BItem) (h : st.cur < st.blocks.length) :
    (st.appendCur it).curItems = st.curItems ++ [it] := by
  show (st.blocks.set st.cur (st.curItems ++ [it])).getD st.cur [] = st.curItems ++ [it]
  exact getD_set_self _ _ _ _ h

theorem appendCur_getD_ne (st : BState) (it : BItem) (i : Nat) (h : i ≠ st.cur) :
    (st.appendCur it).blocks.getD i [] = st.blocks.getD i [] := by
  show (st.blocks.set st.cur (st.curItems ++ [it])).getD i [] = st.blocks.getD i []
  exact getD_set_ne _ _ _ _ _ h

theorem appendInstrs_cur (st : BState) (n : Nat) : (st.appendInstrs n).cur = st.cur := by
  induction n with
  | zero => rfl
  | succ n ih => rw [BState.appendInstrs, appendCur_cur, ih]

theorem appendInstrs_len (st : BState) (n : Nat) :
    (st.appendInstrs n).blocks.length = st.blocks.length := by
  induction n with
  | zero => rfl
  | succ n ih => rw [BState.appendInstrs, appendCur_len, ih]

theorem appendInstrs_curItems (st : BState) (n : Nat) (h : st.cur < st.blocks.length) :
    (st.appendInstrs n).curItems = st.curItems ++ List.replicate n .instr := by
  induction n with
  | zero => simp [BState.appendInstrs]
  | succ n ih =>
      have hcur : (st.appendInstrs n).cur < (st.appendInstrs n).blocks.length := by
        rw [appendInstrs_cur, appendInstrs_len]; exact h
      rw [BState.appendInstrs, appendCur_curItems _ _ hcur, ih,
        List.replicate_succ', ← List.append_assoc]

theorem appendInstrs_getD_ne (st : BState) (n : Nat) (i : Nat) (h : i ≠ st.cur) :
    (st.appendInstrs n).blocks.getD i [] = st.blocks.getD i [] := by
  induction n with
  | zero => rfl
  | succ n ih =>
      rw [BState.appendInstrs, appendCur_getD_ne, ih]
      rw [appendInstrs_cur]; exact h

theorem prependEntry_cur (st : BState) : st.prependEntry.cur = st.cur := rfl

theorem prependEntry_len (st : BState) :
    st.prependEntry.blocks.length = st.blocks.length := by
  simp [BState.prependEntry]

theorem prependEntry_getD_zero (st : BState) (h : 0 < st.blocks.length) :
    st.prependEntry.blocks.getD 0 [] = .instr :: st.blocks.getD 0 [] := by
  show (st.blocks.set 0 (.instr :: st.blocks.getD 0 [])).getD 0 [] = _
  exact getD_set_self _ _ _ _ h

theorem prependEntry_getD_ne (st : BState) (i : Nat) (h : i ≠ 0) :
    st.prependEntry.blocks.getD i [] = st.blocks.getD i [] := by
  show (st.blocks.set 0 (.instr :: st.blocks.getD 0 [])).getD i [] = _
  exact getD_set_ne _ _ _ _ _ h

theorem newBlock_cur (st : BState) : (st.newBlock).1.cur = st.cur := rfl

theorem newBlock_len (st : BState) :
    (st.newBlock).1.blocks.length = st.blocks.length + 1 := by
  simp [BState.newBlock]

theorem newBlock_getD_ne (st : BState) (i : Nat) (h : i ≠ st.blocks.length) :
    (st.newBlock).1.blocks.getD i [] = st.blocks.getD i [] := by
  show (st.blocks ++ [[]]).getD i [] = _
  exact getD_append_nil_ne _ _ _ _ h

theorem newBlock_getD_fresh (st : BState) :
    (st.newBlock).1.blocks.getD st.blocks.length [] = [] := by
  show (st.blocks ++ [[]]).getD st.blocks.length [] = _
  exact getD_append_fresh _ _ _

theorem position_curItems (st : BState) (i : Nat) :
    (st.position i).curItems = st.blocks.getD i [] := rfl

/-! ### Step lemmas for `StPost` -/

theorem stpost_nil {st : BState} (h1 : BInv st) (h2 : noTerm st.curItems = true) :
    StPost st st false := by
  refine ⟨h1, le_refl _, Or.inl rfl, fun i _ _ _ => rfl, fun _ => ⟨[], rfl, rfl⟩,
    fun i hi hcur h0 => Or.inr ⟨hi, hcur, rfl⟩, h2⟩

theorem stpost_appendInstrs {st : BState} (n : Nat) (h1 : BInv st)
    (h2 : noTerm st.curItems = true) : StPost st (st.appendInstrs n) false := by
  obtain ⟨hc, hentry⟩ := h1
  have hlen := appendInstrs_len st n
  have hcur := appendInstrs_cur st n
  have hci := appendInstrs_curItems st n hc
  refine ⟨⟨?_, ?_⟩, le_of_eq hlen.symm, Or.inl hcur, ?_, ?_, ?_, ?_⟩
  · rw [hcur, hlen]; exact hc
  · intro h0
    rw [hcur] at h0
    rw [appendInstrs_getD_ne st n 0 (Ne.symm h0)]
    exact hentry h0
  · intro i _ hcur' _
    exact appendInstrs_getD_ne st n i hcur'
  · intro h0
    exact ⟨[], rfl, by rw [appendInstrs_getD_ne st n 0 (Ne.symm h0)]; rfl⟩
  · intro i hi hcur' h0
    rw [hlen] at hi
    rw [hcur] at hcur'
    exact Or.inr ⟨hi, hcur', appendInstrs_getD_ne st n i hcur'⟩
  · show noTerm (st.appendInstrs n).curItems = true
    rw [hci, noTerm_append, h2, noTerm_replicate]
    rfl

theorem stpost_prependEntry {st : BState} (h1 : BInv st) (h2 : noTerm st.curItems = true) :
    StPost st st.prependEntry false := by
  obtain ⟨hc, hentry⟩ := h1
  have h0len : 0 < st.blocks.length := Nat.lt_of_le_of_lt (Nat.zero_le _) hc
  have hlen := prependEntry_len st
  have hcur := prependEntry_cur st
  refine ⟨⟨?_, ?_⟩, le_of_eq hlen.symm, Or.inl hcur, ?_, ?_, ?_, ?_⟩
  · rw [hcur, hlen]; exact hc
  · intro h0
    rw [hcur] at h0
    rw [prependEntry_getD_zero st h0len]
    exact termWF_cons_instr (hentry h0)
  · intro i _ _ h0
    exact prependEntry_getD_ne st i h0
  · intro h0
    exact ⟨[.instr], rfl, by rw [prependEntry_getD_zero st h0len]; rfl⟩
  · intro i hi hcur' h0
    rw [hlen] at hi
    rw [hcur] at hcur'
    exact Or.inr ⟨hi, hcur', prependEntry_getD_ne st i h0⟩
  · show noTerm st.prependEntry.curItems = true
    by_cases hz : st.cur = 0
    · have : st.prependEntry.curItems = .instr :: st.curItems := by
        show st.prependEntry.blocks.getD st.prependEntry.cur [] = _
        rw [hcur, hz, prependEntry_getD_zero st h0len]
        show _ = .instr :: st.blocks.getD st.cur []
        rw [hz]
      rw [this]
      simp only [noTerm, List.all_cons] at h2 ⊢
      simpa using h2
    · have : st.prependEntry.curItems = st.curItems := by
        show st.prependEntry.blocks.getD st.prependEntry.cur [] = _
        rw [hcur, prependEntry_getD_ne st st.cur hz]
        rfl
      rw [this]
      exact h2

theorem stpost_appendTerm {st : BState} (h1 : BInv st) (h2 : noTerm st.curItems = true) :
    StPost st (st.appendCur .term) true := by
  obtain ⟨hc, hentry⟩ := h1
  have hlen := appendCur_len st .term
  have hcur := appendCur_cur st .term
  refine ⟨⟨?_, ?_⟩, le_of_eq hlen.symm, Or.inl hcur, ?_, ?_, ?_, ?_⟩
  · rw [hcur, hlen]; exact hc
  · intro h0
    rw [hcur] at h0
    rw [appendCur_getD_ne st .term 0 (Ne.symm h0)]
    exact hentry h0
  · intro i _ hcur' _
    exact appendCur_getD_ne st .term i hcur'
  · intro h0
    exact ⟨[], rfl, by rw [appendCur_getD_ne st .term 0 (Ne.symm h0)]; rfl⟩
  · intro i hi hcur' h0
    rw [hlen] at hi
    rw [hcur] at hcur'
    exact Or.inr ⟨hi, hcur', appendCur_getD_ne st .term i hcur'⟩
  · show termWF (st.appendCur .term).curItems = true
    rw [appendCur_curItems st .term hc]
    exact termWF_concat_term h2

theorem stpost_trans {s1 s2 s3 : BState} {rc : Bool} (h0 : 0 < s1.blocks.length)
    (h12 : StPost s1 s2 false) (h23 : StPost s2 s3 rc) : StPost s1 s3 rc := by
  obtain ⟨hI2, hL2, hC2, hFr2, hE2, hG2, hF2⟩ := h12
  obtain ⟨hI3, hL3, hC3, hFr3, hE3, hG3, hF3⟩ := h23
  refine ⟨hI3, le_trans hL2 hL3, ?_, ?_, ?_, ?_, hF3⟩
  · rcases hC3 with h | h
    · rcases hC2 with h' | h'
      · exact Or.inl (h.trans h')
      · exact Or.inr (by omega)
    · exact Or.inr (le_trans hL2 h)
  · intro i hi hc hz
    have hne2 : i ≠ s2.cur := by rcases hC2 with h' | h' <;> omega
    rw [hFr3 i (lt_of_lt_of_le hi hL2) hne2 hz, hFr2 i hi hc hz]
  · intro hz
    have h02 : s2.cur ≠ 0 := by rcases hC2 with h' | h' <;> omega
    obtain ⟨p1, hp1, he1⟩ := hE2 hz
    obtain ⟨p2, hp2, he2⟩ := hE3 h02
    refine ⟨p2 ++ p1, ?_, ?_⟩
    · rw [noTerm_append, hp1, hp2]; rfl
    · rw [he2, he1, List.append_assoc]
  · intro i hi hc hz
    rcases hG3 i hi hc hz with h | ⟨hi2, hc2, heq⟩
    · exact Or.inl h
    · rcases hG2 i hi2 hc2 hz with h' | ⟨hi1, hc1, heq'⟩
      · exact Or.inl (by rw [heq]; exact h')
      · exact Or.inr ⟨hi1, hc1, by rw [heq, heq']⟩

/-! ### The guard and closed branches -/

theorem guard_cur (st : BState) : (bguard st).cur = st.cur := by
  unfold bguard
  split <;> rfl

theorem guard_len (st : BState) : (bguard st).blocks.length = st.blocks.length := by
  unfold bguard
  split
  · rfl
  · exact appendCur_len st .term

theorem guard_getD_ne (st : BState) (i : Nat) (h : i ≠ st.cur) :
    (bguard st).blocks.getD i [] = st.blocks.getD i [] := by
  unfold bguard
  split
  · rfl
  · exact appendCur_getD_ne st .term i h

theorem guard_curItems_termWF {st : BState} {rc : Bool}
    (hF : if rc then termWF st.curItems = true else noTerm st.curItems = true)
    (hc : st.cur < st.blocks.length) : termWF ((bguard st).curItems) = true := by
  unfold bguard
  cases rc with
  | true =>
      simp only [if_true] at hF
      rw [if_pos]
      · exact hF
      · simp only [termWF, Bool.and_eq_true] at hF
        exact hF.2
  | false =>
      rw [if_neg Bool.false_ne_true] at hF
      rw [if_neg]
      · rw [appendCur_curItems st .term hc]
        exact termWF_concat_term hF
      · rw [hasTerm_of_noTerm hF]
        exact Bool.false_ne_true

/-- The state after lowering a branch body and applying the merge guard:
everything is either finished or untouched. -/
def ClosedPost (st st' : BState) : Prop :=
  st.blocks.length ≤ st'.blocks.length ∧
  (∀ i, i < st.blocks.length → i ≠ st.cur → i ≠ 0 →
      st'.blocks.getD i [] = st.blocks.getD i []) ∧
  (st.cur ≠ 0 → ∃ pre, noTerm pre = true ∧
      st'.blocks.getD 0 [] = pre ++ st.blocks.getD 0 []) ∧
  (∀ i, i < st'.blocks.length → i ≠ 0 →
      termWF (st'.blocks.getD i []) = true ∨
        (i < st.blocks.length ∧ i ≠ st.cur ∧
          st'.blocks.getD i [] = st.blocks.getD i []))

theorem closedPost_of_stpost {stIn D : BState} {rc : Bool} (hB : BInv stIn)
    (h : StPost stIn D rc) : ClosedPost stIn (bguard D) := by
  obtain ⟨hBc, _⟩ := hB
  obtain ⟨⟨hDc, hDentry⟩, hL, hC, hFr, hE, hG, hF⟩ := h
  have hterm : termWF ((bguard D).curItems) = true := guard_curItems_termWF hF hDc
  refine ⟨?_, ?_, ?_, ?_⟩
  · rw [guard_len]; exact hL
  · intro i hi hc hz
    have hne : i ≠ D.cur := by rcases hC with h' | h' <;> omega
    rw [guard_getD_ne D i hne, hFr i hi hc hz]
  · intro hz
    have hD0 : D.cur ≠ 0 := by
      rcases hC with h' | h' <;> omega
    obtain ⟨p, hp, he⟩ := hE hz
    exact ⟨p, hp, by rw [guard_getD_ne D 0 (Ne.symm hD0), he]⟩
  · intro i hi hz
    rw [guard_len] at hi
    by_cases hic : i = D.cur
    · left
      have : (bguard D).blocks.getD i [] = (bguard D).curItems := by
        rw [BState.curItems, guard_cur, hic]
      rw [this]
      exact hterm
    · rcases hG i hi hic hz with h' | ⟨hi1, hc1, heq⟩
      · exact Or.inl (by rw [guard_getD_ne D i hic]; exact h')
      · exact Or.inr ⟨hi1, hc1, by rw [guard_getD_ne D i hic, heq]⟩

/-! ### Normalized shapes of the structured-control cases -/

theorem position_blocks (st : BState) (i : Nat) : (st.position i).blocks = st.blocks := rfl

theorem position_cur (st : BState) (i : Nat) : (st.position i).cur = i := rfl

theorem stpost_binv {st st' : BState} {rc : Bool} (h : StPost st st' rc) : BInv st' := h.1

theorem stpost_noterm {st st' : BState} (h : StPost st st' false) :
    noTerm st'.curItems = true := h.2.2.2.2.2.2

theorem stpost_termwf {st st' : BState} (h : StPost st st' true) :
    termWF st'.curItems = true := h.2.2.2.2.2.2

theorem binv_pos {st : BState} (h : BInv st) : 0 < st.blocks.length :=
  Nat.lt_of_le_of_lt (Nat.zero_le _) h.1

theorem newBlock_idx (st : BState) : (st.newBlock).2 = st.blocks.length := rfl

/-- The `If` case of `genStmtB`, abstracted over the two branch lowerings. -/
def ifShape (n : Nat) (F G : BState → BState) (st : BState) : BState :=
  let st1 := st.appendInstrs n
  let st2 := st1.newBlock.1
  let thenIdx := st1.newBlock.2
  let elseIdx := st2.blocks.length
  let mergeIdx := st2.newBlock.1.newBlock.2
  let st5 := (st2.newBlock.1.newBlock.1).appendCur .term
  let st7 := bguard (F (st5.position thenIdx))
  let st9 := bguard (G (st7.position elseIdx))
  st9.position mergeIdx

/-- The `While` case of `genStmtB`, abstracted over the body lowering. -/
def whileShape (n : Nat) (F : BState → BState) (st : BState) : BState :=
  let loopIdx := st.newBlock.2
  let bodyIdx := st.newBlock.1.newBlock.2
  let afterIdx := st.newBlock.1.newBlock.1.newBlock.2
  let st4 := (st.newBlock.1.newBlock.1.newBlock.1).appendCur .term
  let st5 := ((st4.position loopIdx).appendInstrs n).appendCur .term
  let st7 := bguard (F (st5.position bodyIdx))
  st7.position afterIdx

/-- The `For` case of `genStmtB` after the initializer has run, abstracted
over the body and increment lowerings. -/
def forShapeCore (n : Nat) (F J : BState → BState) (st0 : BState) : BState :=
  let loopIdx := st0.newBlock.2
  let bodyIdx := st0.newBlock.1.newBlock.2
  let incIdx := st0.newBlock.1.newBlock.1.newBlock.2
  let afterIdx := st0.newBlock.1.newBlock.1.newBlock.1.newBlock.2
  let st5 := (st0.newBlock.1.newBlock.1.newBlock.1.newBlock.1).appendCur .term
  let st6 := ((st5.position loopIdx).appendInstrs n).appendCur .term
  let st8 := bguard (F (st6.position bodyIdx))
  let st10 := (J (st8.position incIdx)).appendCur .term
  st10.position afterIdx

theorem genStmtB_ifS (cond : Expression) (t : Blk) (e : OBlk) (st : BState) :
    genStmtB (.ifS cond t e) st = ifShape (exprCost cond + 1) (genBlkB t) (genOBlkB e) st :=
  rfl

theorem genStmtB_whileS (cond : Expression) (b : Blk) (st : BState) :
    genStmtB (.whileS cond b) st = whileShape (exprCost cond + 1) (genBlkB b) st :=
  rfl

theorem genStmtB_forS (i : Statement) (cond : Expression) (inc : Statement) (b : Blk)
    (st : BState) :
    genStmtB (.forS i cond inc b) st =
      forShapeCore (exprCost cond + 1) (genBlkB b) (genStmtB inc) (genStmtB i st) :=
  rfl


set_option maxHeartbeats 1000000 in
theorem stpost_ifShape {n : Nat} {F G : BState → BState} {rT rE : Bool} {st : BState}
    (hB : BInv st) (hN : noTerm st.curItems = true)
    (hF : ∀ s, BInv s → noTerm s.curItems = true → StPost s (F s) rT)
    (hG : ∀ s, BInv s → noTerm s.curItems = true → StPost s (G s) rE) :
    StPost st (ifShape n F G st) false := by
  obtain ⟨hc, hentry⟩ := hB
  have hS1 : StPost st (st.appendInstrs n) false := stpost_appendInstrs n ⟨hc, hentry⟩ hN
  simp only [ifShape, newBlock_idx, newBlock_len]
  set st1 := st.appendInstrs n with hst1
  set M := st1.blocks.length with hMdef
  have hL1 : M = st.blocks.length := appendInstrs_len st n
  have hC1 : st1.cur = st.cur := appendInstrs_cur st n
  have hN1 : noTerm st1.curItems = true := stpost_noterm hS1
  have hcM : st.cur < M := by omega
  have hM0 : M ≠ 0 := by omega
  set B := st1.newBlock.1 with hBdef
  set C := B.newBlock.1 with hCdef
  set D := C.newBlock.1 with hDdef
  set E := D.appendCur BItem.term with hEdef
  have hBlen : B.blocks.length = M + 1 := newBlock_len st1
  have hClen : C.blocks.length = M + 1 + 1 := by rw [hCdef, newBlock_len, hBlen]
  have hDlen : D.blocks.length = M + 1 + 1 + 1 := by rw [hDdef, newBlock_len, hClen]
  have hElen : E.blocks.length = M + 1 + 1 + 1 := by rw [hEdef, appendCur_len, hDlen]
  have hDcur : D.cur = st.cur := by
    rw [hDdef, newBlock_cur, hCdef, newBlock_cur, hBdef, newBlock_cur, hC1]
  have hEcur : E.cur = st.cur := by rw [hEdef, appendCur_cur, hDcur]
  have hD_getD : ∀ i, i ≠ M → i ≠ M + 1 → i ≠ M + 1 + 1 →
      D.blocks.getD i [] = st1.blocks.getD i [] := by
    intro i h1 h2 h3
    rw [hDdef, newBlock_getD_ne C i (by omega), hCdef, newBlock_getD_ne B i (by omega),
      hBdef, newBlock_getD_ne st1 i h1]
  have hE_getD : ∀ i, i ≠ st.cur → E.blocks.getD i [] = D.blocks.getD i [] := by
    intro i hi
    rw [hEdef, appendCur_getD_ne D BItem.term i (by rw [hDcur]; exact hi)]
  have hE_L : E.blocks.getD M [] = [] := by
    rw [hE_getD M (by omega), hDdef, newBlock_getD_ne C M (by omega), hCdef,
      newBlock_getD_ne B M (by omega), hBdef]
    exact newBlock_getD_fresh st1
  have hE_L1 : E.blocks.getD (M + 1) [] = [] := by
    rw [hE_getD (M + 1) (by omega), hDdef, newBlock_getD_ne C (M + 1) (by omega), hCdef]
    have h := newBlock_getD_fresh B
    rw [hBlen] at h
    exact h
  have hE_L2 : E.blocks.getD (M + 1 + 1) [] = [] := by
    rw [hE_getD (M + 1 + 1) (by omega), hDdef]
    have h := newBlock_getD_fresh C
    rw [hClen] at h
    exact h
  have hD_curItems : D.curItems = st1.curItems := by
    show D.blocks.getD D.cur [] = st1.blocks.getD st1.cur []
    rw [hDcur, hC1, hD_getD st.cur (by omega) (by omega) (by omega)]
  have hE_cur : E.blocks.getD st.cur [] = st1.curItems ++ [BItem.term] := by
    have h2 : E.blocks.getD st.cur [] = E.curItems := by
      show E.blocks.getD st.cur [] = E.blocks.getD E.cur []
      rw [hEcur]
    rw [h2, hEdef, appendCur_curItems D BItem.term (by omega), hD_curItems]
  have hE_curWF : termWF (E.blocks.getD st.cur []) = true := by
    rw [hE_cur]
    exact termWF_concat_term hN1
  have hE_entry : termWF (E.blocks.getD 0 []) = true := by
    by_cases hz : st.cur = 0
    · rw [← hz]
      exact hE_curWF
    · rw [hE_getD 0 (Ne.symm hz), hD_getD 0 (by omega) (by omega) (by omega)]
      obtain ⟨pre, hpre, heq⟩ := hS1.2.2.2.2.1 hz
      rw [heq]
      exact termWF_prepend hpre (hentry hz)
  have hBthen : BInv (E.position M) := by
    refine ⟨?_, fun _ => ?_⟩
    · show M < E.blocks.length
      omega
    · show termWF (E.blocks.getD 0 []) = true
      exact hE_entry
  have hNthen : noTerm (E.position M).curItems = true := by
    show noTerm (E.blocks.getD M []) = true
    rw [hE_L]
    rfl
  have hC7 := closedPost_of_stpost hBthen (hF (E.position M) hBthen hNthen)
  set st7 := bguard (F (E.position M)) with hst7
  obtain ⟨c1, c2, c3, c4⟩ := hC7
  simp only [position_blocks, position_cur] at c1 c2 c3 c4
  have h7len : M + 1 + 1 + 1 ≤ st7.blocks.length := by omega
  have h7entry : termWF (st7.blocks.getD 0 []) = true := by
    obtain ⟨pre, hpre, heq⟩ := c3 hM0
    rw [heq]
    exact termWF_prepend hpre hE_entry
  have h7_L1 : st7.blocks.getD (M + 1) [] = [] := by
    rw [c2 (M + 1) (by omega) (by omega) (by omega), hE_L1]
  have h7_L2 : st7.blocks.getD (M + 1 + 1) [] = [] := by
    rw [c2 (M + 1 + 1) (by omega) (by omega) (by omega), hE_L2]
  have hBelse : BInv (st7.position (M + 1)) := by
    refine ⟨?_, fun _ => ?_⟩
    · show M + 1 < st7.blocks.length
      omega
    · show termWF (st7.blocks.getD 0 []) = true
      exact h7entry
  have hNelse : noTerm (st7.position (M + 1)).curItems = true := by
    show noTerm (st7.blocks.getD (M + 1) []) = true
    rw [h7_L1]
    rfl
  have hC9 := closedPost_of_stpost hBelse (hG (st7.position (M + 1)) hBelse hNelse)
  set st9 := bguard (G (st7.position (M + 1))) with hst9
  obtain ⟨d1, d2, d3, d4⟩ := hC9
  simp only [position_blocks, position_cur] at d1 d2 d3 d4
  have h9len : M + 1 + 1 + 1 ≤ st9.blocks.length := by omega
  have h9entry : termWF (st9.blocks.getD 0 []) = true := by
    obtain ⟨pre, hpre, heq⟩ := d3 (by omega)
    rw [heq]
    exact termWF_prepend hpre h7entry
  refine ⟨⟨?_, fun _ => ?_⟩, ?_, Or.inr ?_, ?_, ?_, ?_, ?_⟩
  · show M + 1 + 1 < st9.blocks.length
    omega
  · show termWF (st9.blocks.getD 0 []) = true
    exact h9entry
  · show st.blocks.length ≤ st9.blocks.length
    omega
  · show st.blocks.length ≤ M + 1 + 1
    omega
  · intro i hi hic hi0
    show st9.blocks.getD i [] = st.blocks.getD i []
    rw [d2 i (by omega) (by omega) hi0, c2 i (by omega) (by omega) hi0,
      hE_getD i hic, hD_getD i (by omega) (by omega) (by omega),
      hS1.2.2.2.1 i hi hic hi0]
  · intro hz
    obtain ⟨p2, hp2, he2⟩ := d3 (by omega)
    obtain ⟨p1, hp1, he1⟩ := c3 hM0
    obtain ⟨p0, hp0, he0⟩ := hS1.2.2.2.2.1 hz
    refine ⟨p2 ++ (p1 ++ p0), ?_, ?_⟩
    · rw [noTerm_append, noTerm_append, hp0, hp1, hp2]
      rfl
    · show st9.blocks.getD 0 [] = p2 ++ (p1 ++ p0) ++ st.blocks.getD 0 []
      rw [he2, he1, hE_getD 0 (by omega), hD_getD 0 (by omega) (by omega) (by omega), he0]
      simp [List.append_assoc]
  · intro i hi hic hi0
    simp only [position_blocks, position_cur] at hi hic
    show termWF (st9.blocks.getD i []) = true ∨
      (i < st.blocks.length ∧ i ≠ st.cur ∧ st9.blocks.getD i [] = st.blocks.getD i [])
    rcases d4 i hi hi0 with h | ⟨hlt7, hne7, heq9⟩
    · exact Or.inl h
    · rcases c4 i (by omega) hi0 with h | ⟨hltE, hneM, heq7⟩
      · exact Or.inl (by rw [heq9]; exact h)
      · by_cases hisc : i = st.cur
        · left
          rw [heq9, heq7, hisc]
          exact hE_curWF
        · have hiM : i < M := by omega
          rcases hS1.2.2.2.2.2.1 i (by omega) (by rw [hC1]; exact hisc) hi0 with
            h | ⟨hlt1, hne1, heq1⟩
          · left
            rw [heq9, heq7, hE_getD i hisc, hD_getD i (by omega) (by omega) (by omega)]
            exact h
          · right
            refine ⟨by omega, hne1, ?_⟩
            rw [heq9, heq7, hE_getD i hisc, hD_getD i (by omega) (by omega) (by omega), heq1]
  · show noTerm (st9.blocks.getD (M + 1 + 1) []) = true
    rw [d2 (M + 1 + 1) (by omega) (by omega) (by omega), h7_L2]
    rfl

set_option maxHeartbeats 1000000 in
theorem stpost_whileShape {n : Nat} {F : BState → BState} {rT : Bool} {st : BState}
    (hB : BInv st) (hN : noTerm st.curItems = true)
    (hF : ∀ s, BInv s → noTerm s.curItems = true → StPost s (F s) rT) :
    StPost st (whileShape n F st) false := by
  obtain ⟨hc, hentry⟩ := hB
  simp only [whileShape, newBlock_idx, newBlock_len]
  set M := st.blocks.length with hMdef
  have hM0 : M ≠ 0 := by omega
  set D := st.newBlock.1.newBlock.1.newBlock.1 with hDdef
  set E := D.appendCur BItem.term with hEdef
  have hDlen : D.blocks.length = M + 1 + 1 + 1 := by
    rw [hDdef, newBlock_len, newBlock_len, newBlock_len]
  have hElen : E.blocks.length = M + 1 + 1 + 1 := by rw [hEdef, appendCur_len, hDlen]
  have hDcur : D.cur = st.cur := by
    rw [hDdef, newBlock_cur, newBlock_cur, newBlock_cur]
  have hEcur : E.cur = st.cur := by rw [hEdef, appendCur_cur, hDcur]
  have hD_getD : ∀ i, i ≠ M → i ≠ M + 1 → i ≠ M + 1 + 1 →
      D.blocks.getD i [] = st.blocks.getD i [] := by
    intro i h1 h2 h3
    rw [hDdef, newBlock_getD_ne _ i (by rw [newBlock_len, newBlock_len]; omega),
      newBlock_getD_ne _ i (by rw [newBlock_len]; omega), newBlock_getD_ne st i h1]
  have hE_getD : ∀ i, i ≠ st.cur → E.blocks.getD i [] = D.blocks.getD i [] := by
    intro i hi
    rw [hEdef, appendCur_getD_ne D BItem.term i (by rw [hDcur]; exact hi)]
  have hE_L : E.blocks.getD M [] = [] := by
    rw [hE_getD M (by omega), hDdef,
      newBlock_getD_ne _ M (by rw [newBlock_len, newBlock_len]; omega),
      newBlock_getD_ne _ M (by rw [newBlock_len]; omega)]
    exact newBlock_getD_fresh st
  have hE_L1 : E.blocks.getD (M + 1) [] = [] := by
    rw [hE_getD (M + 1) (by omega), hDdef,
      newBlock_getD_ne _ (M + 1) (by rw [newBlock_len, newBlock_len]; omega)]
    have h := newBlock_getD_fresh st.newBlock.1
    rw [newBlock_len] at h
    exact h
  have hE_L2 : E.blocks.getD (M + 1 + 1) [] = [] := by
    rw [hE_getD (M + 1 + 1) (by omega), hDdef]
    have h := newBlock_getD_fresh st.newBlock.1.newBlock.1
    rw [newBlock_len, newBlock_len] at h
    exact h
  have hD_curItems : D.curItems = st.curItems := by
    show D.blocks.getD D.cur [] = st.blocks.getD st.cur []
    rw [hDcur, hD_getD st.cur (by omega) (by omega) (by omega)]
  have hE_cur : E.blocks.getD st.cur [] = st.curItems ++ [BItem.term] := by
    have h2 : E.blocks.getD st.cur [] = E.curItems := by
      show E.blocks.getD st.cur [] = E.blocks.getD E.cur []
      rw [hEcur]
    rw [h2, hEdef, appendCur_curItems D BItem.term (by omega), hD_curItems]
  have hE_curWF : termWF (E.blocks.getD st.cur []) = true := by
    rw [hE_cur]
    exact termWF_concat_term hN
  have hE_entry : termWF (E.blocks.getD 0 []) = true := by
    by_cases hz : st.cur = 0
    · rw [← hz]
      exact hE_curWF
    · rw [hE_getD 0 (by omega), hD_getD 0 (by omega) (by omega) (by omega)]
      exact hentry hz
  set X := (E.position M).appendInstrs n with hXdef
  set st5 := X.appendCur BItem.term with hs5def
  have hXcur : X.cur = M := by rw [hXdef, appendInstrs_cur, position_cur]
  have hXlen : X.blocks.length = M + 1 + 1 + 1 := by
    rw [hXdef, appendInstrs_len, position_blocks, hElen]
  have hs5cur : st5.cur = M := by rw [hs5def, appendCur_cur, hXcur]
  have hs5len : st5.blocks.length = M + 1 + 1 + 1 := by rw [hs5def, appendCur_len, hXlen]
  have hX_curItems : X.curItems = List.replicate n BItem.instr := by
    have h := appendInstrs_curItems (E.position M) n (by show M < E.blocks.length; omega)
    rw [position_curItems, hE_L] at h
    rw [hXdef]
    simpa using h
  have hs5_getD : ∀ i, i ≠ M → st5.blocks.getD i [] = E.blocks.getD i [] := by
    intro i hi
    rw [hs5def, appendCur_getD_ne X BItem.term i (by rw [hXcur]; exact hi), hXdef,
      appendInstrs_getD_ne (E.position M) n i (by rw [position_cur]; exact hi)]
    rfl
  have hs5_M : st5.blocks.getD M [] = List.replicate n BItem.instr ++ [BItem.term] := by
    have h2 : st5.blocks.getD M [] = st5.curItems := by
      show st5.blocks.getD M [] = st5.blocks.getD st5.cur []
      rw [hs5cur]
    rw [h2, hs5def, appendCur_curItems X BItem.term (by omega), hX_curItems]
  have hs5_MWF : termWF (st5.blocks.getD M []) = true := by
    rw [hs5_M]
    exact termWF_concat_term (noTerm_replicate n)
  have hs5_entry : termWF (st5.blocks.getD 0 []) = true := by
    rw [hs5_getD 0 (by omega)]
    exact hE_entry
  have hs5_L1 : st5.blocks.getD (M + 1) [] = [] := by
    rw [hs5_getD (M + 1) (by omega), hE_L1]
  have hs5_L2 : st5.blocks.getD (M + 1 + 1) [] = [] := by
    rw [hs5_getD (M + 1 + 1) (by omega), hE_L2]
  have hBbody : BInv (st5.position (M + 1)) := by
    refine ⟨?_, fun _ => ?_⟩
    · show M + 1 < st5.blocks.length
      omega
    · show termWF (st5.blocks.getD 0 []) = true
      exact hs5_entry
  have hNbody : noTerm (st5.position (M + 1)).curItems = true := by
    show noTerm (st5.blocks.getD (M + 1) []) = true
    rw [hs5_L1]
    rfl
  have hC7 := closedPost_of_stpost hBbody (hF (st5.position (M + 1)) hBbody hNbody)
  set st7 := bguard (F (st5.position (M + 1))) with hst7
  obtain ⟨c1, c2, c3, c4⟩ := hC7
  simp only [position_blocks, position_cur] at c1 c2 c3 c4
  have h7len : M + 1 + 1 + 1 ≤ st7.blocks.length := by omega
  have h7entry : termWF (st7.blocks.getD 0 []) = true := by
    obtain ⟨pre, hpre, heq⟩ := c3 (by omega)
    rw [heq]
    exact termWF_prepend hpre hs5_entry
  have h7_M : st7.blocks.getD M [] = st5.blocks.getD M [] :=
    c2 M (by omega) (by omega) (by omega)
  have h7_L2 : st7.blocks.getD (M + 1 + 1) [] = [] := by
    rw [c2 (M + 1 + 1) (by omega) (by omega) (by omega), hs5_L2]
  refine ⟨⟨?_, fun _ => ?_⟩, ?_, Or.inr ?_, ?_, ?_, ?_, ?_⟩
  · show M + 1 + 1 < st7.blocks.length
    omega
  · show termWF (st7.blocks.getD 0 []) = true
    exact h7entry
  · show st.blocks.length ≤ st7.blocks.length
    omega
  · show st.blocks.length ≤ M + 1 + 1
    omega
  · intro i hi hic hi0
    show st7.blocks.getD i [] = st.blocks.getD i []
    rw [c2 i (by omega) (by omega) hi0, hs5_getD i (by omega), hE_getD i hic,
      hD_getD i (by omega) (by omega) (by omega)]
  · intro hz
    obtain ⟨p1, hp1, he1⟩ := c3 (by omega)
    refine ⟨p1, hp1, ?_⟩
    show st7.blocks.getD 0 [] = p1 ++ st.blocks.getD 0 []
    rw [he1, hs5_getD 0 (by omega), hE_getD 0 (by omega),
      hD_getD 0 (by omega) (by omega) (by omega)]
  · intro i hi hic hi0
    simp only [position_blocks, position_cur] at hi hic
    show termWF (st7.blocks.getD i []) = true ∨
      (i < st.blocks.length ∧ i ≠ st.cur ∧ st7.blocks.getD i [] = st.blocks.getD i [])
    rcases c4 i hi hi0 with h | ⟨hlt5, hne5, heq7⟩
    · exact Or.inl h
    · by_cases hiM : i = M
      · left
        rw [heq7, hiM]
        exact hs5_MWF
      · by_cases hisc : i = st.cur
        · left
          rw [heq7, hs5_getD i hiM, hisc]
          exact hE_curWF
        · have hiM2 : i < M := by omega
          right
          refine ⟨by omega, hisc, ?_⟩
          rw [heq7, hs5_getD i hiM, hE_getD i hisc,
            hD_getD i (by omega) (by omega) (by omega)]
  · show noTerm (st7.blocks.getD (M + 1 + 1) []) = true
    rw [h7_L2]
    rfl


set_option maxHeartbeats 1000000 in
theorem stpost_forShapeCore {n : Nat} {F J : BState → BState} {rT : Bool} {st : BState}
    (hB : BInv st) (hN : noTerm st.curItems = true)
    (hF : ∀ s, BInv s → noTerm s.curItems = true → StPost s (F s) rT)
    (hJ : ∀ s, BInv s → noTerm s.curItems = true → StPost s (J s) false) :
    StPost st (forShapeCore n F J st) false := by
  obtain ⟨hc, hentry⟩ := hB
  simp only [forShapeCore, newBlock_idx, newBlock_len]
  set M := st.blocks.length with hMdef
  have hM0 : M ≠ 0 := by omega
  set D := st.newBlock.1.newBlock.1.newBlock.1.newBlock.1 with hDdef
  set E := D.appendCur BItem.term with hEdef
  have hDlen : D.blocks.length = M + 1 + 1 + 1 + 1 := by
    rw [hDdef, newBlock_len, newBlock_len, newBlock_len, newBlock_len]
  have hElen : E.blocks.length = M + 1 + 1 + 1 + 1 := by rw [hEdef, appendCur_len, hDlen]
  have hDcur : D.cur = st.cur := by
    rw [hDdef, newBlock_cur, newBlock_cur, newBlock_cur, newBlock_cur]
  have hEcur : E.cur = st.cur := by rw [hEdef, appendCur_cur, hDcur]
  have hD_getD : ∀ i, i ≠ M → i ≠ M + 1 → i ≠ M + 1 + 1 → i ≠ M + 1 + 1 + 1 →
      D.blocks.getD i [] = st.blocks.getD i [] := by
    intro i h1 h2 h3 h4
    rw [hDdef,
      newBlock_getD_ne _ i (by rw [newBlock_len, newBlock_len, newBlock_len]; omega),
      newBlock_getD_ne _ i (by rw [newBlock_len, newBlock_len]; omega),
      newBlock_getD_ne _ i (by rw [newBlock_len]; omega),
      newBlock_getD_ne st i h1]
  have hE_getD : ∀ i, i ≠ st.cur → E.blocks.getD i [] = D.blocks.getD i [] := by
    intro i hi
    rw [hEdef, appendCur_getD_ne D BItem.term i (by rw [hDcur]; exact hi)]
  have hE_L : E.blocks.getD M [] = [] := by
    rw [hE_getD M (by omega), hDdef,
      newBlock_getD_ne _ M (by rw [newBlock_len, newBlock_len, newBlock_len]; omega),
      newBlock_getD_ne _ M (by rw [newBlock_len, newBlock_len]; omega),
      newBlock_getD_ne _ M (by rw [newBlock_len]; omega)]
    exact newBlock_getD_fresh st
  have hE_L1 : E.blocks.getD (M + 1) [] = [] := by
    rw [hE_getD (M + 1) (by omega), hDdef,
      newBlock_getD_ne _ (M + 1) (by rw [newBlock_len, newBlock_len, newBlock_len]; omega),
      newBlock_getD_ne _ (M + 1) (by rw [newBlock_len, newBlock_len]; omega)]
    have h := newBlock_getD_fresh st.newBlock.1
    rw [newBlock_len] at h
    exact h
  have hE_L2 : E.blocks.getD (M + 1 + 1) [] = [] := by
    rw [hE_getD (M + 1 + 1) (by omega), hDdef,
      newBlock_getD_ne _ (M + 1 + 1)
        (by rw [newBlock_len, newBlock_len, newBlock_len]; omega)]
    have h := newBlock_getD_fresh st.newBlock.1.newBlock.1
    rw [newBlock_len, newBlock_len] at h
    exact h
  have hE_L3 : E.blocks.getD (M + 1 + 1 + 1) [] = [] := by
    rw [hE_getD (M + 1 + 1 + 1) (by omega), hDdef]
    have h := newBlock_getD_fresh st.newBlock.1.newBlock.1.newBlock.1
    rw [newBlock_len, newBlock_len, newBlock_len] at h
    exact h
  have hD_curItems : D.curItems = st.curItems := by
    show D.blocks.getD D.cur [] = st.blocks.getD st.cur []
    rw [hDcur, hD_getD st.cur (by omega) (by omega) (by omega) (by omega)]
  have hE_cur : E.blocks.getD st.cur [] = st.curItems ++ [BItem.term] := by
    have h2 : E.blocks.getD st.cur [] = E.curItems := by
      show E.blocks.getD st.cur [] = E.blocks.getD E.cur []
      rw [hEcur]
    rw [h2, hEdef, appendCur_curItems D BItem.term (by omega), hD_curItems]
  have hE_curWF : termWF (E.blocks.getD st.cur []) = true := by
    rw [hE_cur]
    exact termWF_concat_term hN
  have hE_entry : termWF (E.blocks.getD 0 []) = true := by
    by_cases hz : st.cur = 0
    · rw [← hz]
      exact hE_curWF
    · rw [hE_getD 0 (by omega), hD_getD 0 (by omega) (by omega) (by omega) (by omega)]
      exact hentry hz
  set X := (E.position M).appendInstrs n with hXdef
  set st6 := X.appendCur BItem.term with hs6def
  have hXcur : X.cur = M := by rw [hXdef, appendInstrs_cur, position_cur]
  have hXlen : X.blocks.length = M + 1 + 1 + 1 + 1 := by
    rw [hXdef, appendInstrs_len, position_blocks, hElen]
  have hs6cur : st6.cur = M := by rw [hs6def, appendCur_cur, hXcur]
  have hs6len : st6.blocks.length = M + 1 + 1 + 1 + 1 := by rw [hs6def, appendCur_len, hXlen]
  have hX_curItems : X.curItems = List.replicate n BItem.instr := by
    have h := appendInstrs_curItems (E.position M) n (by show M < E.blocks.length; omega)
    rw [position_curItems, hE_L] at h
    rw [hXdef]
    simpa using h
  have hs6_getD : ∀ i, i ≠ M → st6.blocks.getD i [] = E.blocks.getD i [] := by
    intro i hi
    rw [hs6def, appendCur_getD_ne X BItem.term i (by rw [hXcur]; exact hi), hXdef,
      appendInstrs_getD_ne (E.position M) n i (by rw [position_cur]; exact hi)]
    rfl
  have hs6_M : st6.blocks.getD M [] = List.replicate n BItem.instr ++ [BItem.term] := by
    have h2 : st6.blocks.getD M [] = st6.curItems := by
      show st6.blocks.getD M [] = st6.blocks.getD st6.cur []
      rw [hs6cur]
    rw [h2, hs6def, appendCur_curItems X BItem.term (by omega), hX_curItems]
  have hs6_MWF : termWF (st6.blocks.getD M []) = true := by
    rw [hs6_M]
    exact termWF_concat_term (noTerm_replicate n)
  have hs6_entry : termWF (st6.blocks.getD 0 []) = true := by
    rw [hs6_getD 0 (by omega)]
    exact hE_entry
  have hs6_L1 : st6.blocks.getD (M + 1) [] = [] := by
    rw [hs6_getD (M + 1) (by omega), hE_L1]
  have hs6_L2 : st6.blocks.getD (M + 1 + 1) [] = [] := by
    rw [hs6_getD (M + 1 + 1) (by omega), hE_L2]
  have hs6_L3 : st6.blocks.getD (M + 1 + 1 + 1) [] = [] := by
    rw [hs6_getD (M + 1 + 1 + 1) (by omega), hE_L3]
  have hBbody : BInv (st6.position (M + 1)) := by
    refine ⟨?_, fun _ => ?_⟩
    · show M + 1 < st6.blocks.length
      omega
    · show termWF (st6.blocks.getD 0 []) = true
      exact hs6_entry
  have hNbody : noTerm (st6.position (M + 1)).curItems = true := by
    show noTerm (st6.blocks.getD (M + 1) []) = true
    rw [hs6_L1]
    rfl
  have hC8 := closedPost_of_stpost hBbody (hF (st6.position (M + 1)) hBbody hNbody)
  set st8 := bguard (F (st6.position (M + 1))) with hst8
  obtain ⟨c1, c2, c3, c4⟩ := hC8
  simp only [position_blocks, position_cur] at c1 c2 c3 c4
  have h8len : M + 1 + 1 + 1 + 1 ≤ st8.blocks.length := by omega
  have h8entry : termWF (st8.blocks.getD 0 []) = true := by
    obtain ⟨pre, hpre, heq⟩ := c3 (by omega)
    rw [heq]
    exact termWF_prepend hpre hs6_entry
  have h8_M : termWF (st8.blocks.getD M []) = true := by
    rw [c2 M (by omega) (by omega) (by omega)]
    exact hs6_MWF
  have h8_L2 : st8.blocks.getD (M + 1 + 1) [] = [] := by
    rw [c2 (M + 1 + 1) (by omega) (by omega) (by omega), hs6_L2]
  have h8_L3 : st8.blocks.getD (M + 1 + 1 + 1) [] = [] := by
    rw [c2 (M + 1 + 1 + 1) (by omega) (by omega) (by omega), hs6_L3]
  have hBinc : BInv (st8.position (M + 1 + 1)) := by
    refine ⟨?_, fun _ => ?_⟩
    · show M + 1 + 1 < st8.blocks.length
      omega
    · show termWF (st8.blocks.getD 0 []) = true
      exact h8entry
  have hNinc : noTerm (st8.position (M + 1 + 1)).curItems = true := by
    show noTerm (st8.blocks.getD (M + 1 + 1) []) = true
    rw [h8_L2]
    rfl
  have hS9 := hJ (st8.position (M + 1 + 1)) hBinc hNinc
  have hS10 : StPost (st8.position (M + 1 + 1)) ((J (st8.position (M + 1 + 1))).appendCur
      BItem.term) true := by
    refine stpost_trans ?_ hS9 (stpost_appendTerm (stpost_binv hS9) (stpost_noterm hS9))
    show 0 < st8.blocks.length
    omega
  set st10 := (J (st8.position (M + 1 + 1))).appendCur BItem.term with hs10def
  obtain ⟨e_binv, e_len, e_cur, e_frame, e_entry, e_G, e_F⟩ := hS10
  simp only [position_blocks, position_cur] at e_binv e_len e_cur e_frame e_entry e_G
  have h10len : M + 1 + 1 + 1 + 1 ≤ st10.blocks.length := by omega
  have h10entry : termWF (st10.blocks.getD 0 []) = true := by
    obtain ⟨pre, hpre, heq⟩ := e_entry (by omega)
    rw [heq]
    exact termWF_prepend hpre h8entry
  refine ⟨⟨?_, fun _ => ?_⟩, ?_, Or.inr ?_, ?_, ?_, ?_, ?_⟩
  · show M + 1 + 1 + 1 < st10.blocks.length
    omega
  · show termWF (st10.blocks.getD 0 []) = true
    exact h10entry
  · show st.blocks.length ≤ st10.blocks.length
    omega
  · show st.blocks.length ≤ M + 1 + 1 + 1
    omega
  · intro i hi hic hi0
    show st10.blocks.getD i [] = st.blocks.getD i []
    rw [e_frame i (by omega) (by omega) hi0, c2 i (by omega) (by omega) hi0,
      hs6_getD i (by omega), hE_getD i hic,
      hD_getD i (by omega) (by omega) (by omega) (by omega)]
  · intro hz
    obtain ⟨p3, hp3, he3⟩ := e_entry (by omega)
    obtain ⟨p1, hp1, he1⟩ := c3 (by omega)
    refine ⟨p3 ++ p1, ?_, ?_⟩
    · rw [noTerm_append, hp3, hp1]
      rfl
    · show st10.blocks.getD 0 [] = p3 ++ p1 ++ st.blocks.getD 0 []
      rw [he3, he1, hs6_getD 0 (by omega), hE_getD 0 (by omega),
        hD_getD 0 (by omega) (by omega) (by omega) (by omega)]
      simp [List.append_assoc]
  · intro i hi hic hi0
    simp only [position_blocks, position_cur] at hi hic
    show termWF (st10.blocks.getD i []) = true ∨
      (i < st.blocks.length ∧ i ≠ st.cur ∧ st10.blocks.getD i [] = st.blocks.getD i [])
    by_cases hcur10 : i = st10.cur
    · left
      rw [hcur10]
      exact e_F
    · rcases e_G i hi hcur10 hi0 with h | ⟨hlt8, hne22, heq10⟩
      · exact Or.inl h
      · rcases c4 i (by omega) hi0 with h | ⟨hlt6, hne21, heq8⟩
        · exact Or.inl (by rw [heq10]; exact h)
        · by_cases hiM : i = M
          · left
            rw [heq10, heq8, hiM]
            exact hs6_MWF
          · by_cases hisc : i = st.cur
            · left
              rw [heq10, heq8, hs6_getD i hiM, hisc]
              exact hE_curWF
            · have hiM2 : i < M := by omega
              right
              refine ⟨by omega, hisc, ?_⟩
              rw [heq10, heq8, hs6_getD i hiM, hE_getD i hisc,
                hD_getD i (by omega) (by omega) (by omega) (by omega)]
  · show noTerm (st10.blocks.getD (M + 1 + 1 + 1) []) = true
    rw [e_frame (M + 1 + 1 + 1) (by omega) (by omega) (by omega),
      c2 (M + 1 + 1 + 1) (by omega) (by omega) (by omega), hs6_L3]
    rfl


theorem stpost_locals {st st' : BState} {rc : Bool} (L : List String)
    (h : StPost st st' rc) : StPost st { st' with locals := L } rc := h

mutual

/-- Lowering a dead-code-free statement from a live, unterminated insertion
point yields the builder postcondition. -/
theorem genStmt_spec : ∀ (s : Statement) (st : BState), okStmt s = true → BInv st →
    noTerm st.curItems = true → StPost st (genStmtB s st) s.isRet
  | .declaration _ _ v, st, _, hB, hN => by
      have h0 := binv_pos hB
      have h1 := stpost_appendInstrs (exprCost v) hB hN
      have h2 := stpost_trans h0 h1 (stpost_prependEntry (stpost_binv h1) (stpost_noterm h1))
      have h3 := stpost_trans h0 h2 (stpost_appendInstrs 1 (stpost_binv h2) (stpost_noterm h2))
      exact stpost_locals _ h3
  | .assignment name v, st, _, hB, hN => by
      have h0 := binv_pos hB
      have h1 := stpost_appendInstrs (exprCost v) hB hN
      simp only [genStmtB]
      split
      · exact stpost_trans h0 h1 (stpost_appendInstrs 1 (stpost_binv h1) (stpost_noterm h1))
      · have h2 := stpost_trans h0 h1
          (stpost_prependEntry (stpost_binv h1) (stpost_noterm h1))
        exact stpost_locals _
          (stpost_trans h0 h2 (stpost_appendInstrs 1 (stpost_binv h2) (stpost_noterm h2)))
  | .arrayAssignment _ idx v, st, _, hB, hN => by
      have h0 := binv_pos hB
      have h1 := stpost_appendInstrs 1 hB hN
      have h2 := stpost_trans h0 h1 (stpost_appendInstrs (exprCost idx) (stpost_binv h1)
        (stpost_noterm h1))
      have h3 := stpost_trans h0 h2 (stpost_appendInstrs (exprCost v) (stpost_binv h2)
        (stpost_noterm h2))
      exact stpost_trans h0 h3 (stpost_appendInstrs 1 (stpost_binv h3) (stpost_noterm h3))
  | .ifS cond t e, st, hok, hB, hN => by
      simp only [okStmt, Bool.and_eq_true] at hok
      rw [genStmtB_ifS]
      exact stpost_ifShape hB hN (fun s a b => genBlk_spec t s hok.1 a b)
        (fun s a b => genOBlk_spec e s hok.2 a b)
  | .whileS cond b, st, hok, hB, hN => by
      simp only [okStmt] at hok
      rw [genStmtB_whileS]
      exact stpost_whileShape hB hN (fun s a b' => genBlk_spec b s hok a b')
  | .forS i cond inc b, st, hok, hB, hN => by
      simp only [okStmt, Bool.and_eq_true, Bool.not_eq_true'] at hok
      obtain ⟨⟨⟨⟨hiR, hokI⟩, hincR⟩, hokInc⟩, hokB⟩ := hok
      rw [genStmtB_forS]
      have h0 := binv_pos hB
      have hInit : StPost st (genStmtB i st) false := by
        have h := genStmt_spec i st hokI hB hN
        rw [hiR] at h
        exact h
      refine stpost_trans h0 hInit
        (stpost_forShapeCore (stpost_binv hInit) (stpost_noterm hInit)
          (fun s' a b' => genBlk_spec b s' hokB a b') ?_)
      intro s' a b'
      have h := genStmt_spec inc s' hokInc a b'
      rw [hincR] at h
      exact h
  | .ret (Option.some e), st, _, hB, hN => by
      have h0 := binv_pos hB
      have h1 := stpost_appendInstrs (exprCost e) hB hN
      exact stpost_trans h0 h1 (stpost_appendTerm (stpost_binv h1) (stpost_noterm h1))
  | .ret Option.none, st, _, hB, hN => stpost_appendTerm hB hN
  | .exprS e, st, _, hB, hN => stpost_appendInstrs (exprCost e) hB hN

/-- Lowering a dead-code-free statement list. -/
theorem genBlk_spec : ∀ (b : Blk) (st : BState), okBlk b = true → BInv st →
    noTerm st.curItems = true → StPost st (genBlkB b st) (blkEndsRet b)
  | .nil, st, _, hB, hN => stpost_nil hB hN
  | .cons s .nil, st, hok, hB, hN => genStmt_spec s st hok hB hN
  | .cons s (.cons s2 rest), st, hok, hB, hN => by
      have hok' : (!s.isRet && okStmt s && okBlk (.cons s2 rest)) = true := hok
      simp only [Bool.and_eq_true, Bool.not_eq_true'] at hok'
      obtain ⟨⟨hsR, hokS⟩, hokRest⟩ := hok'
      have h0 := binv_pos hB
      have h1 : StPost st (genStmtB s st) false := by
        have h := genStmt_spec s st hokS hB hN
        rw [hsR] at h
        exact h
      exact stpost_trans h0 h1
        (genBlk_spec (.cons s2 rest) (genStmtB s st) hokRest (stpost_binv h1)
          (stpost_noterm h1))

/-- Lowering an optional else-block. -/
theorem genOBlk_spec : ∀ (ob : OBlk) (st : BState), okOBlk ob = true → BInv st →
    noTerm st.curItems = true → StPost st (genOBlkB ob st) (oblkEndsRet ob)
  | .none, st, _, hB, hN => stpost_nil hB hN
  | .some b, st, hok, hB, hN => genBlk_spec b st hok hB hN

end


theorem all_termWF_of_getD {l : List (List BItem)}
    (h : ∀ i, i < l.length → termWF (l.getD i []) = true) : l.all termWF = true := by
  rw [List.all_eq_true]
  intro x hx
  obtain ⟨i, hi, hxi⟩ := List.getElem_of_mem hx
  have h2 := h i hi
  rw [List.getD_eq_getElem?_getD, List.getElem?_eq_getElem hi] at h2
  rw [← hxi]
  exact h2

/-- C8 amended: for a function whose body is free of dead code (no statement
follows a `return` in any statement list, and no `for` initializer or
increment is a `return`), every basic block emitted by `generate_function`
is well formed: exactly one terminator, as the last instruction. -/
theorem terminator_invariant_amended (f : Function) (hok : okBlk f.body = true) :
    (genFunctionB f).blocks.all termWF = true := by
  have hB0 : BInv (BState.mk [[]] 0 (f.parameters.map (fun p => p.name)) []) :=
    ⟨Nat.zero_lt_one, fun h => absurd rfl h⟩
  set st0 : BState := BState.mk [[]] 0 (f.parameters.map (fun p => p.name)) [] with hst0
  have hN0 : noTerm st0.curItems = true := rfl
  have h0 : 0 < st0.blocks.length := Nat.zero_lt_one
  have h1 := stpost_appendInstrs (2 * f.parameters.length) hB0 hN0
  have h2 : StPost st0 (genBlkB f.body (st0.appendInstrs (2 * f.parameters.length)))
      (blkEndsRet f.body) :=
    stpost_trans h0 h1
      (genBlk_spec f.body _ hok (stpost_binv h1) (stpost_noterm h1))
  set st2 := genBlkB f.body (st0.appendInstrs (2 * f.parameters.length)) with hst2
  have hC : ClosedPost st0 (bguard st2) := closedPost_of_stpost hB0 h2
  obtain ⟨hDc, hDentry⟩ := stpost_binv h2
  have htop : termWF ((bguard st2).blocks.getD 0 []) = true := by
    by_cases hz : st2.cur = 0
    · have h := guard_curItems_termWF h2.2.2.2.2.2.2 hDc
      rw [BState.curItems, guard_cur, hz] at h
      exact h
    · rw [guard_getD_ne st2 0 (Ne.symm hz)]
      exact hDentry hz
  refine all_termWF_of_getD ?_
  intro i hi
  by_cases hz : i = 0
  · rw [hz]
    exact htop
  · have hlen0 : st0.blocks.length = 1 := rfl
    rcases hC.2.2.2 i hi hz with h | ⟨hlt, _, _⟩
    · exact h
    · rw [hlen0] at hlt
      omega

/-- A function whose body has dead code after a `return`: the generator
keeps lowering and emits a second terminator into the same block. -/
def fBad : Function :=
  { name := "bad", parameters := [], returnType := .int,
    body := .cons (.ret (Option.some (.literal (.int 1))))
      (.cons (.ret (Option.some (.literal (.int 2)))) .nil) }

def progBad : Program := { functions := [fBad], main := .nil }

/-- A dead-code-free function exercising `if`, `while` and `for`,
including a `return` inside one `if` branch. -/
def fGood : Function :=
  { name := "good", parameters := [{ name := "a", paramType := .int }], returnType := .int,
    body := .cons
      (.ifS (.binaryOp (.varE "a") .greater (.literal (.int 0)))
        (.cons (.ret (Option.some (.literal (.int 1)))) .nil)
        (.some (.cons (.assignment "a" (.literal (.int 2))) .nil)))
      (.cons
        (.whileS (.binaryOp (.varE "a") .less (.literal (.int 10)))
          (.cons (.assignment "a" (.binaryOp (.varE "a") .add (.literal (.int 1)))) .nil))
        (.cons
          (.forS (.declaration "i" .int (.literal (.int 0)))
            (.binaryOp (.varE "i") .lessEqual (.literal (.int 3)))
            (.assignment "i" (.binaryOp (.varE "i") .add (.literal (.int 1))))
            (.cons (.assignment "a" (.binaryOp (.varE "a") .add (.varE "i"))) .nil))
          (.cons (.ret (Option.some (.varE "a"))) .nil))) }

/-- C8 counterexample: `generate_block` (llvm.rs 986-991) does not stop
after a `Return`, and `Return`'s `ret` (llvm.rs 1105-1113) is emitted with
no terminator check, so a body with code after a `return` — which the
typechecker accepts — produces a block with two terminators and
instructions after the first one. -/
theorem terminator_invariant_counterexample :
    typecheckProgram progBad = .ok () ∧
    (genFunctionB fBad).blocks =
      [[.instr, .instr, .term, .instr, .instr, .term]] ∧
    (genFunctionB fBad).blocks.all termWF = false := by
  refine ⟨by rfl, by rfl, by rfl⟩

theorem terminator_invariant_amended_witness :
    okBlk fGood.body = true ∧ (genFunctionB fGood).blocks.all termWF = true :=
  ⟨by rfl, terminator_invariant_amended fGood (by rfl)⟩


end Yaf
